import Mathlib

/-!
Shallow embedding of the steampipe-plugin-aws table functions
(`src/aws/table_aws_lambda_alias.go`, `src/aws/table_aws_cloudfront_origin_access_identity.go`,
`src/aws/table_aws_cloudtrail_trail_event.go`, and the `aws_api_gatewayv2_route` table file),
together with a model of the steampipe SDK streaming primitives they call
(`StreamListItem` / `StreamLeafListItem`, `RowsRemaining`, `WaitForListRateLimit`),
which are not part of this repository and are modelled from the spec.

Provider interaction is modelled by an explicit list of page responses
(the response to the k-th provider call), and a run records a trace of
events: rate-limiter waits, provider calls (with their tag and requested
page size), and row emissions.
-/

namespace Steampipe

/-- Error values: either an awserr.Error carrying a code and a message,
or a generic (non-aws) error carrying only a message. -/
inductive AwsErr where
  | aws : String → String → AwsErr
  | generic : String → AwsErr
deriving DecidableEq, Repr

/-- A (service, action) pair, as put in the Tags map of a List or Get config. -/
structure Tag where
  service : String
  action : String
deriving DecidableEq, Repr

/-- Observable events of one run of a list function: a rate-limiter wait
tagged with a (service, action) pair, a provider call (with its tag, when
the call site is tagged, and the requested page size, when the request
carries one), and the emission of one row to the caller. -/
inductive Event where
  | wait : Tag → Event
  | call : Option Tag → Option Int → Event
  | emit : Event
deriving DecidableEq, Repr

/-- True exactly for provider-call events. -/
def Event.isCall : Event → Bool
  | .call _ _ => true
  | _ => false

/-- State threaded through a run of a list function: the caller row limit
(QueryContext.Limit, none when the query has no limit), the rows delivered
to the caller so far in order, and the event trace so far. -/
structure RunState (α : Type) where
  limit : Option Nat
  emitted : List α
  events : List Event
deriving Repr

/-- Append events to the trace. -/
def pushEvents {α : Type} (s : RunState α) (es : List Event) : RunState α :=
  { s with events := s.events ++ es }

/-- Modelled from the spec: the Row Emitter behind StreamListItem and
StreamLeafListItem (steampipe SDK, not in src/) streams hydrated rows to
the caller, enforcing limits: an item is appended only while the emitted
row count is below the caller limit, and a scan emits at most L rows. -/
def streamItem {α : Type} (s : RunState α) (x : α) : RunState α :=
  match s.limit with
  | none => { s with emitted := s.emitted ++ [x], events := s.events ++ [Event.emit] }
  | some l =>
      if s.emitted.length < l then
        { s with emitted := s.emitted ++ [x], events := s.events ++ [Event.emit] }
      else s

/-- Modelled from the spec: d.RowsRemaining (steampipe SDK, not in src/)
reports the remaining row budget, the caller limit minus the rows emitted
so far; when the query carries no limit there is no budget to exhaust. -/
def rowsRemaining {α : Type} (s : RunState α) : Option Nat :=
  s.limit.map (fun l => l - s.emitted.length)

/-- The Go source checks d.RowsRemaining(ctx) == 0. -/
def rowsRemainingZero {α : Type} (s : RunState α) : Bool :=
  rowsRemaining s = some 0

/-- Inner for-loop shared by the limit-aware list functions: stream each
item with StreamListItem / StreamLeafListItem and return early (flag true)
as soon as d.RowsRemaining(ctx) == 0. -/
def streamLoop {α : Type} : List α → RunState α → RunState α × Bool
  | [], s => (s, false)
  | x :: rest, s =>
      let s1 := streamItem s x
      if rowsRemainingZero s1 then (s1, true) else streamLoop rest s1

/-- int32 conversion of a non-negative int64 value, as in
`limit := int32(*d.QueryContext.Limit)`. -/
def toInt32 (n : Nat) : Int :=
  ((n : Int) + 2 ^ 31) % 2 ^ 32 - 2 ^ 31

/-- The page-size clamp shared by listAPIGatewayV2Routes (ceiling 500) and
listCloudwatchLogTrailEvents (ceiling 10000):
maxLimit starts at the ceiling; when the query has a limit, it is
converted to int32 and, when below the ceiling, replaces it, values below
1 being clamped to 1. -/
def computeMaxLimit (ceiling : Int) (limit : Option Nat) : Int :=
  match limit with
  | none => ceiling
  | some l =>
      let li := toInt32 l
      if li < ceiling then (if li < 1 then 1 else li) else ceiling

/-- Outcome of a list function: the returned error value, plus a marker
for the modelling artifact of running out of scripted provider responses
while the code would issue another call. -/
inductive Outcome where
  | ok : Outcome
  | err : AwsErr → Outcome
  | exhausted : Outcome
deriving DecidableEq, Repr

/-! ## aws_api_gatewayv2_route (src/unnamed/part_002) -/

/-- Fields of types.Route copied into the GetRouteOutput (representative
subset of the thirteen copied fields). -/
structure Route where
  routeId : Option String
  routeKey : Option String
  target : Option String
deriving DecidableEq, Repr

/-- apigatewayv2.GetRouteOutput, as built field-by-field from a Route in
listAPIGatewayV2Routes. -/
structure GetRouteOutput where
  routeId : Option String
  routeKey : Option String
  target : Option String
deriving DecidableEq, Repr

/-- The field-by-field copy of a listed route into a GetRouteOutput. -/
def routeToGetRouteOutput (r : Route) : GetRouteOutput :=
  { routeId := r.routeId, routeKey := r.routeKey, target := r.target }

/-- The RouteInfo row item streamed by the route table. -/
structure RouteInfo where
  apiId : String
  getRouteOutput : GetRouteOutput
deriving DecidableEq, Repr

/-- One GetRoutes response page: the Items slice and the NextToken. -/
structure RoutesPage where
  items : List Route
  nextToken : Option String
deriving DecidableEq, Repr

/-- The (service, action) tag of the route list config. -/
def apigwListTag : Tag := { service := "apigateway", action := "GetRoutes" }

/-- The for-pagesLeft loop of listAPIGatewayV2Routes: on each iteration
apply rate limiting (d.WaitForListRateLimit), call svc.GetRoutes with the
fixed MaxResults, return the error on failure, stream each route as a
RouteInfo returning once d.RowsRemaining(ctx) == 0, and continue while the
response carries a NextToken. -/
def getRoutesPages (apiId : String) (maxLimit : Int) :
    List (Except AwsErr RoutesPage) → RunState RouteInfo → RunState RouteInfo × Outcome
  | [], s => (s, Outcome.exhausted)
  | resp :: rest, s =>
      let s1 := pushEvents s [Event.wait apigwListTag, Event.call (some apigwListTag) (some maxLimit)]
      match resp with
      | Except.error e => (s1, Outcome.err e)
      | Except.ok page =>
          let r := streamLoop (page.items.map (fun rt => RouteInfo.mk apiId (routeToGetRouteOutput rt))) s1
          if r.2 then (r.1, Outcome.ok)
          else
            match page.nextToken with
            | some _ => getRoutesPages apiId maxLimit rest r.1
            | none => (r.1, Outcome.ok)

/-- listAPIGatewayV2Routes: the client resolves to an error (returned), to
nil (unsupported region: return no data, no calls), or to a scripted
response stream; maxLimit is computed once from the ceiling 500 and the
caller limit, and the page loop runs. -/
def listAPIGatewayV2Routes
    (client : Except AwsErr (Option (List (Except AwsErr RoutesPage))))
    (apiId : String) (limit : Option Nat) : RunState RouteInfo × Outcome :=
  let s0 : RunState RouteInfo := { limit := limit, emitted := [], events := [] }
  match client with
  | Except.error e => (s0, Outcome.err e)
  | Except.ok none => (s0, Outcome.ok)
  | Except.ok (some responses) =>
      getRoutesPages apiId (computeMaxLimit 500 limit) responses s0

/-- apigatewayv2.GetRouteInput as built in getAPIGatewayV2Route. -/
structure GetRouteInput where
  apiId : String
  routeId : String
deriving DecidableEq, Repr

/-- getAPIGatewayV2Route: client error is returned; a nil client
(unsupported region) returns no data and issues no call; otherwise the
api_id and route_id equals-quals are read and svc.GetRoute is called,
its error returned, its item (when non-nil) wrapped as a RouteInfo.
The third component records the provider calls issued. -/
def getAPIGatewayV2Route
    (client : Except AwsErr (Option (GetRouteInput → Except AwsErr (Option GetRouteOutput))))
    (quals : String → Option String) :
    Option RouteInfo × Option AwsErr × List GetRouteInput :=
  match client with
  | Except.error e => (none, some e, [])
  | Except.ok none => (none, none, [])
  | Except.ok (some svcCall) =>
      let api := (quals "api_id").getD ""
      let routeId := (quals "route_id").getD ""
      let params : GetRouteInput := { apiId := api, routeId := routeId }
      match svcCall params with
      | Except.error e => (none, some e, [params])
      | Except.ok (some item) => (some (RouteInfo.mk api item), none, [params])
      | Except.ok none => (none, none, [params])

/-! ## aws_cloudtrail_trail_event (src/aws/table_aws_cloudtrail_trail_event.go) -/

/-- A FilteredLogEvent streamed by the cloudtrail trail event table. -/
structure LogEvent where
  eventId : Option String
  message : Option String
  timestamp : Option Int
deriving DecidableEq, Repr

/-- The columns and CloudWatch filter keys of buildQueryFilter (the
filterQuals map, in source order). -/
def filterQuals : List (String × String) :=
  [("access_key_id", "userIdentity.accessKeyId"),
   ("aws_region", "awsRegion"),
   ("error_code", "errorCode"),
   ("event_category", "eventCategory"),
   ("event_id", "eventID"),
   ("event_name", "eventName"),
   ("event_source", "eventSource"),
   ("read_only", "readOnly"),
   ("source_ip_address", "sourceIPAddress"),
   ("username", "userIdentity.userName"),
   ("user_type", "userIdentity.type")]

/-- The fmt.Sprintf rendering of one filter clause. -/
def filterClause (filterKey value : String) : String :=
  "( $." ++ filterKey ++ " = \"" ++ value ++ "\" )"

/-- buildQueryFilter: for each column of the filterQuals map that has an
equals-qual, append its rendered clause. -/
def buildQueryFilter (equalQuals : String → Option String) : List String :=
  filterQuals.filterMap (fun p => (equalQuals p.1).map (fun v => filterClause p.2 v))

/-- The columns of the cloudtrail trail event table whose equals-quals
feed the provider request: the CloudWatch request fields plus the
filterQuals pattern columns (the timestamp column, declared with range
operators, feeds StartTime and EndTime separately). -/
def pushdownColumns : List String :=
  ["log_group_name", "log_stream_name", "filter"] ++ filterQuals.map Prod.fst

/-- cloudwatchlogs.FilterLogEventsInput as assembled by
listCloudwatchLogTrailEvents. -/
structure FilterLogEventsInput where
  logGroupName : String
  limit : Int
  logStreamNames : List String
  filterPattern : Option String
  startTime : Option Int
  endTime : Option Int
deriving DecidableEq, Repr

/-- One qual on the timestamp column: an operator and a timestamp value
(seconds). -/
structure TsQual where
  op : String
  seconds : Int
deriving DecidableEq, Repr

/-- The switch over the timestamp quals: = sets both StartTime and
EndTime, >= and > set StartTime, < and <= set EndTime, all in
milliseconds; any other operator changes nothing. -/
def applyTimestampQuals (qs : List TsQual) (input : FilterLogEventsInput) :
    FilterLogEventsInput :=
  qs.foldl
    (fun inp q =>
      let tsMs := q.seconds * 1000
      if q.op = "=" then { inp with startTime := some tsMs, endTime := some tsMs }
      else if q.op = ">=" ∨ q.op = ">" then { inp with startTime := some tsMs }
      else if q.op = "<" ∨ q.op = "<=" then { inp with endTime := some tsMs }
      else inp)
    input

/-- The input assembly of listCloudwatchLogTrailEvents: LogGroupName and
Limit are set up front; LogStreamNames from the log_stream_name qual when
present; the FilterPattern is the raw filter qual when non-empty, else the
joined buildQueryFilter clauses when any; finally the timestamp quals set
StartTime / EndTime. -/
def buildFilterLogEventsInput (equalQuals : String → Option String)
    (tsQuals : List TsQual) (maxLimit : Int) : FilterLogEventsInput :=
  let base : FilterLogEventsInput :=
    { logGroupName := (equalQuals "log_group_name").getD ""
      limit := maxLimit
      logStreamNames :=
        match equalQuals "log_stream_name" with
        | some v => [v]
        | none => []
      filterPattern := none
      startTime := none
      endTime := none }
  let filter := buildQueryFilter equalQuals
  let queryFilter := (equalQuals "filter").getD ""
  let base1 :=
    if queryFilter ≠ "" then { base with filterPattern := some queryFilter }
    else if filter.length > 0 then
      { base with filterPattern := some ("\x7b " ++ String.intercalate " && " filter ++ " \x7d") }
    else base
  applyTimestampQuals tsQuals base1

/-- The (service, action) tag of the cloudtrail trail event list config. -/
def logsListTag : Tag := { service := "logs", action := "FilterLogEvents" }

/-- The paginator loop of listCloudwatchLogTrailEvents: while the
paginator has more pages (scripted responses remain), apply rate limiting
(d.WaitForListRateLimit), fetch the next page with the fixed page size,
return the error on failure, and stream each event returning once
d.RowsRemaining(ctx) == 0. -/
def filterLogEventsPages (maxLimit : Int) :
    List (Except AwsErr (List LogEvent)) → RunState LogEvent → RunState LogEvent × Outcome
  | [], s => (s, Outcome.ok)
  | resp :: rest, s =>
      let s1 := pushEvents s [Event.wait logsListTag, Event.call (some logsListTag) (some maxLimit)]
      match resp with
      | Except.error e => (s1, Outcome.err e)
      | Except.ok evs =>
          let r := streamLoop evs s1
          if r.2 then (r.1, Outcome.ok)
          else filterLogEventsPages maxLimit rest r.1

/-- listCloudwatchLogTrailEvents: the client error is returned; maxLimit
is computed once from the ceiling 10000 and the caller limit, the
FilterLogEventsInput is assembled, and the paginator loop runs. The built
input is also returned for inspection. -/
def listCloudwatchLogTrailEvents
    (client : Except AwsErr (List (Except AwsErr (List LogEvent))))
    (equalQuals : String → Option String) (tsQuals : List TsQual)
    (limit : Option Nat) :
    RunState LogEvent × Outcome × Option FilterLogEventsInput :=
  let s0 : RunState LogEvent := { limit := limit, emitted := [], events := [] }
  match client with
  | Except.error e => (s0, Outcome.err e, none)
  | Except.ok responses =>
      let maxLimit := computeMaxLimit 10000 limit
      let input := buildFilterLogEventsInput equalQuals tsQuals maxLimit
      let r := filterLogEventsPages maxLimit responses s0
      (r.1, r.2, some input)

/-! ## aws_cloudfront_origin_access_identity
(src/aws/table_aws_cloudfront_origin_access_identity.go) -/

/-- cloudfront.OriginAccessIdentitySummary (the fields the table uses). -/
structure OAISummary where
  id : String
  s3CanonicalUserId : Option String
deriving DecidableEq, Repr

/-- The CloudFrontOriginAccessIdentity member of the get output. -/
structure OriginAccessIdentity where
  id : String
deriving DecidableEq, Repr

/-- cloudfront.GetCloudFrontOriginAccessIdentityOutput. -/
structure GetOAIOutput where
  cloudFrontOriginAccessIdentity : OriginAccessIdentity
  eTag : Option String
deriving DecidableEq, Repr

/-- One page passed to the ListCloudFrontOriginAccessIdentitiesPages
callback: the Items of the page and the isLast flag. -/
structure OAIPage where
  items : List OAISummary
  isLast : Bool
deriving DecidableEq, Repr

/-- The ListCloudFrontOriginAccessIdentitiesPages loop of
listCloudFrontOriginAccessIdentities: each underlying provider call is
untagged and not rate limited; on error the error is returned; the
callback streams every item of the page with no row-budget check and asks
for the next page exactly while isLast is false. -/
def listOAIPages :
    List (Except AwsErr OAIPage) → RunState OAISummary → RunState OAISummary × Outcome
  | [], s => (s, Outcome.exhausted)
  | resp :: rest, s =>
      let s1 := pushEvents s [Event.call none none]
      match resp with
      | Except.error e => (s1, Outcome.err e)
      | Except.ok page =>
          let s2 := page.items.foldl streamItem s1
          if page.isLast then (s2, Outcome.ok) else listOAIPages rest s2

/-- listCloudFrontOriginAccessIdentities: the session error is returned,
otherwise the pages loop runs. -/
def listCloudFrontOriginAccessIdentities
    (client : Except AwsErr (List (Except AwsErr OAIPage)))
    (limit : Option Nat) : RunState OAISummary × Outcome :=
  let s0 : RunState OAISummary := { limit := limit, emitted := [], events := [] }
  match client with
  | Except.error e => (s0, Outcome.err e)
  | Except.ok responses => listOAIPages responses s0

/-- The dynamic type of the row item reaching the origin access identity
hydrate functions: a get output, a listed summary, or any other value. -/
inductive OAIItem where
  | getOutput : GetOAIOutput → OAIItem
  | summary : OAISummary → OAIItem
  | other : OAIItem
deriving DecidableEq, Repr

/-- originAccessIdentityID: the type switch returning the Id of a get
output or of a summary, and nil for every other item. -/
def originAccessIdentityID : OAIItem → Option String
  | OAIItem.getOutput g => some g.cloudFrontOriginAccessIdentity.id
  | OAIItem.summary s => some s.id
  | OAIItem.other => none

/-- The account fields produced by getCommonColumns. -/
structure AwsCommonColumnData where
  partition : String
  accountId : String
deriving DecidableEq, Repr

/-- Result of a hydrate function, with a marker for the run-time panic of
dereferencing the nil pointer originAccessIdentityID returns on an
unexpected item. -/
inductive HydrateResult (α : Type) where
  | panicNilDeref : HydrateResult α
  | err : AwsErr → HydrateResult α
  | ok : α → HydrateResult α
deriving DecidableEq, Repr

/-- getCloudFrontOriginAccessIdentityARN: first dereferences
originAccessIdentityID(h.Item) unconditionally (a nil result is a run-time
panic), then fetches the common column data (its error is returned) and
renders the ARN string. -/
def getCloudFrontOriginAccessIdentityARN
    (common : Except AwsErr AwsCommonColumnData) (item : OAIItem) :
    HydrateResult String :=
  match originAccessIdentityID item with
  | none => HydrateResult.panicNilDeref
  | some originAccessIdentityData =>
      match common with
      | Except.error e => HydrateResult.err e
      | Except.ok c =>
          HydrateResult.ok
            ("arn:" ++ c.partition ++ ":cloudfront::" ++ c.accountId ++
              ":origin-access-identity/" ++ originAccessIdentityData)

/-! ## aws_lambda_alias (src/aws/table_aws_lambda_alias.go) -/

/-- lambda.AliasConfiguration (the fields the table uses). -/
structure AliasConfiguration where
  name : String
  aliasArn : Option String
deriving DecidableEq, Repr

/-- The aliasRowData struct streamed by the alias table: the alias plus
the parent function name. -/
structure AliasRowData where
  Alias : AliasConfiguration
  functionName : String
deriving DecidableEq, Repr

/-- One page passed to the ListAliasesPages callback. -/
structure AliasesPage where
  aliases : List AliasConfiguration
  lastPage : Bool
deriving DecidableEq, Repr

/-- The ListAliasesPages loop of listLambdaAliases: each underlying
provider call is untagged and not rate limited; on error the error is
returned; the callback streams every alias as an aliasRowData with no
row-budget check and asks for the next page exactly while lastPage is
false. -/
def listAliasesPages (functionName : String) :
    List (Except AwsErr AliasesPage) → RunState AliasRowData → RunState AliasRowData × Outcome
  | [], s => (s, Outcome.exhausted)
  | resp :: rest, s =>
      let s1 := pushEvents s [Event.call none none]
      match resp with
      | Except.error e => (s1, Outcome.err e)
      | Except.ok page =>
          let s2 := page.aliases.foldl (fun st a => streamItem st (AliasRowData.mk a functionName)) s1
          if page.lastPage then (s2, Outcome.ok) else listAliasesPages functionName rest s2

/-- listLambdaAliases: the session error is returned, otherwise the
ListAliasesPages loop runs for the parent function. -/
def listLambdaAliases
    (client : Except AwsErr (List (Except AwsErr AliasesPage)))
    (functionName : String) (limit : Option Nat) : RunState AliasRowData × Outcome :=
  let s0 : RunState AliasRowData := { limit := limit, emitted := [], events := [] }
  match client with
  | Except.error e => (s0, Outcome.err e)
  | Except.ok responses => listAliasesPages functionName responses s0

/-- lambda.GetAliasInput as built in getLambdaAlias. -/
structure GetAliasInput where
  functionName : String
  name : String
deriving DecidableEq, Repr

/-- getLambdaAlias: the name, function_name and region key quals are read
(a missing qual reads as the empty string); when name or function_name is
empty or the region qual differs from the matrix region, the function
returns no row and no error before any session or provider call;
otherwise the session error is returned, GetAlias is called, its error
returned and its result wrapped. The third component records the provider
calls issued. -/
def getLambdaAlias
    (svc : Except AwsErr (GetAliasInput → Except AwsErr AliasConfiguration))
    (quals : String → Option String) (matrixRegion : String) :
    Option AliasRowData × Option AwsErr × List GetAliasInput :=
  let name := (quals "name").getD ""
  let functionName := (quals "function_name").getD ""
  let region := (quals "region").getD ""
  if name = "" ∨ functionName = "" ∨ region ≠ matrixRegion then (none, none, [])
  else
    match svc with
    | Except.error e => (none, some e, [])
    | Except.ok svcCall =>
        let params : GetAliasInput := { functionName := functionName, name := name }
        match svcCall params with
        | Except.error e => (none, some e, [params])
        | Except.ok rowData => (some (AliasRowData.mk rowData functionName), none, [params])

/-- lambda.GetPolicyOutput (the fields the table uses); the zero value
lambda.GetPolicyOutput\x7b\x7d has both fields nil. -/
structure GetPolicyOutput where
  policy : Option String
  revisionId : Option String
deriving DecidableEq, Repr

/-- lambda.GetPolicyInput as built in getLambdaAliasPolicy. -/
structure GetPolicyInput where
  functionName : String
  qualifier : String
deriving DecidableEq, Repr

/-- True exactly for an awserr.Error whose Code() is
ResourceNotFoundException. -/
def isResourceNotFound : AwsErr → Bool
  | AwsErr.aws code _ => code = "ResourceNotFoundException"
  | AwsErr.generic _ => false

/-- getLambdaAliasPolicy: the session error is returned; GetPolicy is
called with the function name and the alias name as qualifier; on an
awserr.Error with code ResourceNotFoundException the zero-value
GetPolicyOutput is returned with no error; every other error is returned;
success passes the output through. The second component records the
provider calls issued. -/
def getLambdaAliasPolicy
    (svc : Except AwsErr (GetPolicyInput → Except AwsErr GetPolicyOutput))
    (item : AliasRowData) :
    Except AwsErr GetPolicyOutput × List GetPolicyInput :=
  match svc with
  | Except.error e => (Except.error e, [])
  | Except.ok svcCall =>
      let input : GetPolicyInput := { functionName := item.functionName, qualifier := item.Alias.name }
      match svcCall input with
      | Except.error e =>
          if isResourceNotFound e then (Except.ok (GetPolicyOutput.mk none none), [input])
          else (Except.error e, [input])
      | Except.ok op => (Except.ok op, [input])

/-! ## Hydrate memoization (modelled from the spec) -/

/-- Modelled from the spec: per-row column resolution by the Hydration
Graph (steampipe SDK, not in src/). The RowContext holds a mapping from
hydrate-function identity to its memoized result; for each requested
column, a column with no hydrate reference resolves from the listed item,
and a column with one reuses the memoized result when present, otherwise
runs the hydrate function once and caches it. The value returned is the
final memo table together with the list of hydrate invocations actually
performed, in order. -/
def resolveColumns {α : Type} (hydrateFn : String → α) :
    List (Option String) → List (String × α) → List (String × α) × List String
  | [], memo => (memo, [])
  | none :: cols, memo => resolveColumns hydrateFn cols memo
  | some i :: cols, memo =>
      if i ∈ memo.map Prod.fst then resolveColumns hydrateFn cols memo
      else
        let memo1 := memo ++ [(i, hydrateFn i)]
        let r := resolveColumns hydrateFn cols memo1
        (r.1, i :: r.2)

/-- The columns of the aws_lambda_alias table with the identity of their
declared hydrate function: only policy and policy_std declare one, and
they share getLambdaAliasPolicy. -/
def tableAwsLambdaAliasColumnHydrates : List (String × Option String) :=
  [("name", none),
   ("function_name", none),
   ("alias_arn", none),
   ("function_version", none),
   ("revision_id", none),
   ("description", none),
   ("policy", some "getLambdaAliasPolicy"),
   ("policy_std", some "getLambdaAliasPolicy"),
   ("title", none),
   ("akas", none)]

/-- The hydrate references of the columns of a table restricted to a
requested projection. -/
def projectionHydrates (cols : List (String × Option String)) (projection : List String) :
    List (Option String) :=
  (cols.filter (fun c => projection.contains c.1)).map Prod.snd

/-! ## Trace predicates -/

/-- Number of emit events in a trace. -/
def countEmits (es : List Event) : Nat :=
  (es.filter (fun e => e = Event.emit)).length

/-- Number of provider-call events in a trace. -/
def countCalls (es : List Event) : Nat :=
  (es.filter Event.isCall).length

/-- Number of provider-call events occurring after the L-th emit event of
a trace (all calls when L = 0). -/
def callsAfterEmits : Nat → List Event → Nat
  | 0, es => countCalls es
  | _ + 1, [] => 0
  | l + 1, Event.emit :: es => callsAfterEmits l es
  | l + 1, _ :: es => callsAfterEmits (l + 1) es

/-- The page size the claim prescribes: the minimum of the ceiling and
the remaining row budget, never below 1. -/
def claimedPageSize (ceiling remaining : Int) : Int :=
  min ceiling (if remaining < 1 then 1 else remaining)

/-- Checks along a trace that every provider call requesting a page size
requests exactly the claimed size for the row budget remaining at that
point (the initial budget minus the emits so far). -/
def pageSizesMatchRemaining (ceiling : Int) : Int → List Event → Bool
  | _, [] => true
  | remaining, Event.emit :: es => pageSizesMatchRemaining ceiling (remaining - 1) es
  | remaining, Event.call _ (some sz) :: es =>
      sz = claimedPageSize ceiling remaining && pageSizesMatchRemaining ceiling remaining es
  | remaining, Event.call _ none :: es => pageSizesMatchRemaining ceiling remaining es
  | remaining, Event.wait _ :: es => pageSizesMatchRemaining ceiling remaining es

/-- Every tagged provider call of the trace is immediately preceded by a
rate-limiter wait carrying the same (service, action) tag. -/
def waitsPrecedeTaggedCalls : List Event → Bool
  | [] => true
  | Event.wait t :: Event.call (some t1) _ :: es =>
      if t = t1 then waitsPrecedeTaggedCalls es else false
  | Event.wait _ :: es => waitsPrecedeTaggedCalls es
  | Event.call (some _) _ :: _ => false
  | _ :: es => waitsPrecedeTaggedCalls es

/-- A trace made of complete blocks: appending it before any continuation
does not change what waitsPrecedeTaggedCalls sees of the continuation. -/
def ClosedTrace (es : List Event) : Prop :=
  ∀ xs, waitsPrecedeTaggedCalls (es ++ xs) = waitsPrecedeTaggedCalls xs

/-- Every provider call of the trace that carries a page size carries
exactly the size m. -/
def callSizesFixed (m : Int) (es : List Event) : Prop :=
  ∀ t sz, Event.call t sz ∈ es → sz = some m

/-- The route items of a prefix of page responses, as RouteInfo rows. -/
def routesDelivered (a : String) : List (Except AwsErr RoutesPage) → List RouteInfo
  | [] => []
  | Except.error _ :: rest => routesDelivered a rest
  | Except.ok p :: rest =>
      p.items.map (fun rt => RouteInfo.mk a (routeToGetRouteOutput rt)) ++ routesDelivered a rest

/-- The log events of a prefix of page responses. -/
def logEventsDelivered : List (Except AwsErr (List LogEvent)) → List LogEvent
  | [] => []
  | Except.error _ :: rest => logEventsDelivered rest
  | Except.ok evs :: rest => evs ++ logEventsDelivered rest

/-! ## Basic lemmas about the streaming model -/

theorem streamItem_cases {α : Type} (s : RunState α) (x : α) :
    streamItem s x
        = { s with emitted := s.emitted ++ [x], events := s.events ++ [Event.emit] } ∨
      streamItem s x = s := by
  unfold streamItem
  cases s.limit with
  | none => exact Or.inl rfl
  | some l =>
      by_cases h : s.emitted.length < l
      · simp [h]
      · simp [h]

theorem streamItem_limit {α : Type} (s : RunState α) (x : α) :
    (streamItem s x).limit = s.limit := by
  rcases streamItem_cases s x with h | h <;> rw [h]

theorem streamItem_length_le {α : Type} (s : RunState α) (x : α) (l : Nat)
    (hl : s.limit = some l) (h : s.emitted.length ≤ l) :
    (streamItem s x).emitted.length ≤ l := by
  unfold streamItem
  rw [hl]
  by_cases hlt : s.emitted.length < l
  · simp [hlt]
    omega
  · simp [hlt]
    exact h

theorem pushEvents_emitted {α : Type} (s : RunState α) (es : List Event) :
    (pushEvents s es).emitted = s.emitted := rfl

theorem pushEvents_limit {α : Type} (s : RunState α) (es : List Event) :
    (pushEvents s es).limit = s.limit := rfl

theorem countEmits_nil : countEmits [] = 0 := rfl

theorem countCalls_nil : countCalls [] = 0 := rfl

theorem countEmits_append (es fs : List Event) :
    countEmits (es ++ fs) = countEmits es + countEmits fs := by
  simp [countEmits, List.filter_append]

theorem countCalls_append (es fs : List Event) :
    countCalls (es ++ fs) = countCalls es + countCalls fs := by
  simp [countCalls, List.filter_append]

theorem countEmits_emit_cons (es : List Event) :
    countEmits (Event.emit :: es) = countEmits es + 1 := by
  simp [countEmits, List.filter]

theorem countEmits_wait_cons (t : Tag) (es : List Event) :
    countEmits (Event.wait t :: es) = countEmits es := by
  simp [countEmits, List.filter]

theorem countEmits_call_cons (t : Option Tag) (sz : Option Int) (es : List Event) :
    countEmits (Event.call t sz :: es) = countEmits es := by
  simp [countEmits, List.filter]

theorem countCalls_emit_cons (es : List Event) :
    countCalls (Event.emit :: es) = countCalls es := by
  simp [countCalls, List.filter, Event.isCall]

theorem countCalls_wait_cons (t : Tag) (es : List Event) :
    countCalls (Event.wait t :: es) = countCalls es := by
  simp [countCalls, List.filter, Event.isCall]

theorem countCalls_call_cons (t : Option Tag) (sz : Option Int) (es : List Event) :
    countCalls (Event.call t sz :: es) = countCalls es + 1 := by
  simp [countCalls, List.filter, Event.isCall]

theorem callsAfterEmits_nil (l : Nat) : callsAfterEmits l [] = 0 := by
  cases l <;> simp [callsAfterEmits, countCalls]

theorem callsAfterEmits_zero (es : List Event) : callsAfterEmits 0 es = countCalls es := by
  cases es <;> rfl

theorem callsAfterEmits_append (l : Nat) (es fs : List Event) :
    callsAfterEmits l (es ++ fs)
      = callsAfterEmits l es + callsAfterEmits (l - countEmits es) fs := by
  induction es generalizing l with
  | nil => simp [callsAfterEmits_nil, countEmits_nil]
  | cons e es ih =>
      cases l with
      | zero =>
          show countCalls ((e :: es) ++ fs)
            = countCalls (e :: es) + callsAfterEmits (0 - countEmits (e :: es)) fs
          rw [Nat.zero_sub, callsAfterEmits_zero]
          exact countCalls_append (e :: es) fs
      | succ l =>
          cases e with
          | emit =>
              have h1 : callsAfterEmits (l + 1) (Event.emit :: (es ++ fs))
                  = callsAfterEmits l (es ++ fs) := rfl
              have h2 : callsAfterEmits (l + 1) (Event.emit :: es)
                  = callsAfterEmits l es := rfl
              rw [List.cons_append, h1, h2, ih, countEmits_emit_cons]
              congr 2
              omega
          | wait t =>
              have h1 : callsAfterEmits (l + 1) (Event.wait t :: (es ++ fs))
                  = callsAfterEmits (l + 1) (es ++ fs) := rfl
              have h2 : callsAfterEmits (l + 1) (Event.wait t :: es)
                  = callsAfterEmits (l + 1) es := rfl
              rw [List.cons_append, h1, h2, ih, countEmits_wait_cons]
          | call t sz =>
              have h1 : callsAfterEmits (l + 1) (Event.call t sz :: (es ++ fs))
                  = callsAfterEmits (l + 1) (es ++ fs) := rfl
              have h2 : callsAfterEmits (l + 1) (Event.call t sz :: es)
                  = callsAfterEmits (l + 1) es := rfl
              rw [List.cons_append, h1, h2, ih, countEmits_call_cons]

theorem callsAfterEmits_emitsOnly (l : Nat) (es : List Event)
    (h : countCalls es = 0) : callsAfterEmits l es = 0 := by
  induction es generalizing l with
  | nil => exact callsAfterEmits_nil l
  | cons e es ih =>
      cases l with
      | zero => exact h
      | succ l =>
          cases e with
          | emit => exact ih l (by rw [countCalls_emit_cons] at h; exact h)
          | wait t => exact ih (l + 1) (by rw [countCalls_wait_cons] at h; exact h)
          | call t sz => rw [countCalls_call_cons] at h; omega

theorem callsAfterEmits_waitCall_block (l : Nat) (hl : 1 ≤ l)
    (t : Tag) (t1 : Option Tag) (sz : Option Int) :
    callsAfterEmits l [Event.wait t, Event.call t1 sz] = 0 := by
  cases l with
  | zero => omega
  | succ l => rfl

theorem countCalls_replicate_emit (k : Nat) :
    countCalls (List.replicate k Event.emit) = 0 := by
  induction k with
  | zero => rfl
  | succ k ih => rw [List.replicate_succ, countCalls_emit_cons]; exact ih

theorem countEmits_replicate_emit (k : Nat) :
    countEmits (List.replicate k Event.emit) = k := by
  induction k with
  | zero => rfl
  | succ k ih => rw [List.replicate_succ, countEmits_emit_cons]; omega

theorem callsAfterEmits_append_emits (l k : Nat) (es : List Event) :
    callsAfterEmits l (es ++ List.replicate k Event.emit) = callsAfterEmits l es := by
  rw [callsAfterEmits_append,
    callsAfterEmits_emitsOnly _ _ (countCalls_replicate_emit k)]
  omega

theorem wpc_emit_cons (xs : List Event) :
    waitsPrecedeTaggedCalls (Event.emit :: xs) = waitsPrecedeTaggedCalls xs := rfl

theorem wpc_untagged_cons (sz : Option Int) (xs : List Event) :
    waitsPrecedeTaggedCalls (Event.call none sz :: xs) = waitsPrecedeTaggedCalls xs := rfl

theorem wpc_block_cons (t : Tag) (sz : Option Int) (xs : List Event) :
    waitsPrecedeTaggedCalls (Event.wait t :: Event.call (some t) sz :: xs)
      = waitsPrecedeTaggedCalls xs := by
  show (if t = t then waitsPrecedeTaggedCalls xs else false) = waitsPrecedeTaggedCalls xs
  simp

theorem closedTrace_nil : ClosedTrace ([] : List Event) := by
  intro xs
  rfl

theorem closedTrace_append {es fs : List Event}
    (h1 : ClosedTrace es) (h2 : ClosedTrace fs) : ClosedTrace (es ++ fs) := by
  intro xs
  rw [List.append_assoc, h1, h2]

theorem closedTrace_replicate_emit (k : Nat) :
    ClosedTrace (List.replicate k Event.emit) := by
  induction k with
  | zero => exact closedTrace_nil
  | succ k ih =>
      intro xs
      rw [List.replicate_succ, List.cons_append, wpc_emit_cons]
      exact ih xs

theorem closedTrace_block (t : Tag) (sz : Option Int) :
    ClosedTrace [Event.wait t, Event.call (some t) sz] := by
  intro xs
  exact wpc_block_cons t sz xs

theorem closedTrace_untagged (sz : Option Int) :
    ClosedTrace [Event.call none sz] := by
  intro xs
  exact wpc_untagged_cons sz xs

theorem wpc_of_closedTrace {es : List Event} (h : ClosedTrace es) :
    waitsPrecedeTaggedCalls es = true := by
  have h1 := h []
  rw [List.append_nil] at h1
  exact h1

/-! ## Lemmas about streamLoop and the item folds -/

theorem streamLoop_cons_eq {α : Type} (x : α) (items : List α) (s : RunState α) :
    streamLoop (x :: items) s
      = if rowsRemainingZero (streamItem s x) then (streamItem s x, true)
        else streamLoop items (streamItem s x) := rfl

theorem streamLoop_nil_eq {α : Type} (s : RunState α) :
    streamLoop ([] : List α) s = (s, false) := rfl

theorem streamLoop_events {α : Type} :
    ∀ (items : List α) (s : RunState α),
      ∃ k, (streamLoop items s).1.events = s.events ++ List.replicate k Event.emit := by
  intro items
  induction items with
  | nil =>
      intro s
      exact ⟨0, by rw [streamLoop_nil_eq]; simp⟩
  | cons x items ih =>
      intro s
      rw [streamLoop_cons_eq]
      rcases streamItem_cases s x with hc | hc
      · by_cases hz : rowsRemainingZero (streamItem s x)
        · refine ⟨1, ?_⟩
          rw [if_pos hz, hc]
          simp
        · rcases ih (streamItem s x) with ⟨k, hk⟩
          refine ⟨k + 1, ?_⟩
          rw [if_neg hz, hk, hc]
          simp [List.replicate_succ, List.append_assoc]
      · by_cases hz : rowsRemainingZero (streamItem s x)
        · refine ⟨0, ?_⟩
          rw [if_pos hz, hc]
          simp
        · rcases ih (streamItem s x) with ⟨k, hk⟩
          refine ⟨k, ?_⟩
          rw [if_neg hz, hk, hc]

theorem streamLoop_spec {α : Type} (l : Nat) :
    ∀ (items : List α) (s : RunState α), s.limit = some l → s.emitted.length ≤ l →
      (streamLoop items s).1.limit = some l ∧
      (streamLoop items s).1.emitted.length ≤ l ∧
      (∃ k, (streamLoop items s).1.events = s.events ++ List.replicate k Event.emit ∧
        (streamLoop items s).1.emitted.length = s.emitted.length + k) ∧
      ((streamLoop items s).2 = false → s.emitted.length < l →
        (streamLoop items s).1.emitted.length < l) := by
  intro items
  induction items with
  | nil =>
      intro s h1 h2
      rw [streamLoop_nil_eq]
      exact ⟨h1, h2, ⟨0, by simp, by simp⟩, fun _ h => h⟩
  | cons x items ih =>
      intro s h1 h2
      have hs1lim : (streamItem s x).limit = some l := by rw [streamItem_limit]; exact h1
      have hs1le : (streamItem s x).emitted.length ≤ l := streamItem_length_le s x l h1 h2
      rw [streamLoop_cons_eq]
      by_cases hz : rowsRemainingZero (streamItem s x)
      · rw [if_pos hz]
        refine ⟨hs1lim, hs1le, ?_, by intro hf; exact Bool.noConfusion hf⟩
        rcases streamItem_cases s x with hc | hc
        · exact ⟨1, by rw [hc]; simp, by rw [hc]; simp⟩
        · exact ⟨0, by rw [hc]; simp, by rw [hc]; simp⟩
      · rw [if_neg hz]
        have hlt : (streamItem s x).emitted.length < l := by
          have hrr : rowsRemaining (streamItem s x)
              = some (l - (streamItem s x).emitted.length) := by
            unfold rowsRemaining
            rw [hs1lim]
            rfl
          unfold rowsRemainingZero at hz
          rw [hrr] at hz
          simp at hz
          omega
        rcases ih (streamItem s x) hs1lim hs1le with ⟨ih1, ih2, ⟨k, hk1, hk2⟩, ih4⟩
        refine ⟨ih1, ih2, ?_, fun hf _ => ih4 hf hlt⟩
        rcases streamItem_cases s x with hc | hc
        · refine ⟨k + 1, ?_, ?_⟩
          · rw [hk1, hc]
            simp [List.replicate_succ, List.append_assoc]
          · rw [hk2, hc]
            simp
            omega
        · exact ⟨k, by rw [hk1, hc], by rw [hk2, hc]⟩

theorem foldl_stream_le {α β : Type} (g : β → α) (l : Nat) :
    ∀ (items : List β) (s : RunState α), s.limit = some l → s.emitted.length ≤ l →
      (items.foldl (fun st a => streamItem st (g a)) s).limit = some l ∧
      (items.foldl (fun st a => streamItem st (g a)) s).emitted.length ≤ l := by
  intro items
  induction items with
  | nil => intro s h1 h2; exact ⟨h1, h2⟩
  | cons x items ih =>
      intro s h1 h2
      exact ih (streamItem s (g x)) (by rw [streamItem_limit]; exact h1)
        (streamItem_length_le s (g x) l h1 h2)

theorem foldl_stream_events {α β : Type} (g : β → α) :
    ∀ (items : List β) (s : RunState α),
      ∃ k, (items.foldl (fun st a => streamItem st (g a)) s).events
        = s.events ++ List.replicate k Event.emit := by
  intro items
  induction items with
  | nil => intro s; exact ⟨0, by simp⟩
  | cons x items ih =>
      intro s
      rcases ih (streamItem s (g x)) with ⟨k, hk⟩
      rcases streamItem_cases s (g x) with hc | hc
      · refine ⟨k + 1, ?_⟩
        show (List.foldl _ (streamItem s (g x)) items).events = _
        rw [hk, hc]
        simp [List.replicate_succ, List.append_assoc]
      · refine ⟨k, ?_⟩
        show (List.foldl _ (streamItem s (g x)) items).events = _
        rw [hk, hc]

theorem countEmits_block (t : Tag) (t1 : Option Tag) (sz : Option Int) :
    countEmits [Event.wait t, Event.call t1 sz] = 0 := by
  rw [countEmits_wait_cons, countEmits_call_cons]
  rfl

/-! ## Lemmas about the page loops -/

theorem getRoutesPages_nil_eq (a : String) (m : Int) (s : RunState RouteInfo) :
    getRoutesPages a m [] s = (s, Outcome.exhausted) := rfl

theorem getRoutesPages_error_eq (a : String) (m : Int) (e : AwsErr)
    (rest : List (Except AwsErr RoutesPage)) (s : RunState RouteInfo) :
    getRoutesPages a m (Except.error e :: rest) s
      = (pushEvents s [Event.wait apigwListTag, Event.call (some apigwListTag) (some m)],
          Outcome.err e) := rfl

theorem getRoutesPages_ok_eq (a : String) (m : Int) (page : RoutesPage)
    (rest : List (Except AwsErr RoutesPage)) (s : RunState RouteInfo) :
    getRoutesPages a m (Except.ok page :: rest) s
      = (if (streamLoop (page.items.map (fun rt => RouteInfo.mk a (routeToGetRouteOutput rt)))
              (pushEvents s [Event.wait apigwListTag, Event.call (some apigwListTag) (some m)])).2
         then ((streamLoop (page.items.map (fun rt => RouteInfo.mk a (routeToGetRouteOutput rt)))
              (pushEvents s [Event.wait apigwListTag, Event.call (some apigwListTag) (some m)])).1,
            Outcome.ok)
         else
           match page.nextToken with
           | some _ => getRoutesPages a m rest
              (streamLoop (page.items.map (fun rt => RouteInfo.mk a (routeToGetRouteOutput rt)))
                (pushEvents s [Event.wait apigwListTag, Event.call (some apigwListTag) (some m)])).1
           | none => ((streamLoop (page.items.map (fun rt => RouteInfo.mk a (routeToGetRouteOutput rt)))
              (pushEvents s [Event.wait apigwListTag, Event.call (some apigwListTag) (some m)])).1,
            Outcome.ok)) := rfl

theorem getRoutesPages_le (a : String) (m : Int) (l : Nat) :
    ∀ (responses : List (Except AwsErr RoutesPage)) (s : RunState RouteInfo),
      s.limit = some l → s.emitted.length ≤ l →
      (getRoutesPages a m responses s).1.limit = some l ∧
      (getRoutesPages a m responses s).1.emitted.length ≤ l := by
  intro responses
  induction responses with
  | nil => intro s h1 h2; rw [getRoutesPages_nil_eq]; exact ⟨h1, h2⟩
  | cons resp rest ih =>
      intro s h1 h2
      cases resp with
      | error e => rw [getRoutesPages_error_eq]; exact ⟨h1, h2⟩
      | ok page =>
          rw [getRoutesPages_ok_eq]
          rcases streamLoop_spec l
              (page.items.map (fun rt => RouteInfo.mk a (routeToGetRouteOutput rt)))
              (pushEvents s [Event.wait apigwListTag, Event.call (some apigwListTag) (some m)])
              h1 h2 with ⟨sl1, sl2, _, _⟩
          by_cases hr : (streamLoop (page.items.map (fun rt => RouteInfo.mk a (routeToGetRouteOutput rt)))
              (pushEvents s [Event.wait apigwListTag, Event.call (some apigwListTag) (some m)])).2
          · rw [if_pos hr]; exact ⟨sl1, sl2⟩
          · rw [if_neg hr]
            cases hnt : page.nextToken with
            | some tok => exact ih _ sl1 sl2
            | none => exact ⟨sl1, sl2⟩

theorem getRoutesPages_spec (a : String) (m : Int) (l : Nat) :
    ∀ (responses : List (Except AwsErr RoutesPage)) (s : RunState RouteInfo),
      s.limit = some l → countEmits s.events = s.emitted.length → s.emitted.length < l →
      callsAfterEmits l (getRoutesPages a m responses s).1.events
        = callsAfterEmits l s.events := by
  intro responses
  induction responses with
  | nil => intro s h1 h2 h3; rw [getRoutesPages_nil_eq]
  | cons resp rest ih =>
      intro s h1 h2 h3
      have hcaa1 : callsAfterEmits l
          (s.events ++ [Event.wait apigwListTag, Event.call (some apigwListTag) (some m)])
            = callsAfterEmits l s.events := by
        rw [callsAfterEmits_append, callsAfterEmits_waitCall_block (l - countEmits s.events)
          (by omega)]
        omega
      have hcnt1 : countEmits
          (s.events ++ [Event.wait apigwListTag, Event.call (some apigwListTag) (some m)])
            = s.emitted.length := by
        rw [countEmits_append, countEmits_block]
        omega
      cases resp with
      | error e => rw [getRoutesPages_error_eq]; exact hcaa1
      | ok page =>
          rw [getRoutesPages_ok_eq]
          rcases streamLoop_spec l
              (page.items.map (fun rt => RouteInfo.mk a (routeToGetRouteOutput rt)))
              (pushEvents s [Event.wait apigwListTag, Event.call (some apigwListTag) (some m)])
              h1 (le_of_lt h3) with ⟨sl1, sl2, ⟨k, hk1, hk2⟩, sl4⟩
          have hcaa2 : callsAfterEmits l
              (streamLoop (page.items.map (fun rt => RouteInfo.mk a (routeToGetRouteOutput rt)))
                (pushEvents s [Event.wait apigwListTag, Event.call (some apigwListTag) (some m)])).1.events
                = callsAfterEmits l s.events := by
            rw [hk1]
            show callsAfterEmits l
              ((s.events ++ [Event.wait apigwListTag, Event.call (some apigwListTag) (some m)])
                ++ List.replicate k Event.emit) = _
            rw [callsAfterEmits_append_emits, hcaa1]
          have hcnt2 : countEmits
              (streamLoop (page.items.map (fun rt => RouteInfo.mk a (routeToGetRouteOutput rt)))
                (pushEvents s [Event.wait apigwListTag, Event.call (some apigwListTag) (some m)])).1.events
                = (streamLoop (page.items.map (fun rt => RouteInfo.mk a (routeToGetRouteOutput rt)))
                    (pushEvents s [Event.wait apigwListTag, Event.call (some apigwListTag) (some m)])).1.emitted.length := by
            rw [hk1, hk2]
            show countEmits
              ((s.events ++ [Event.wait apigwListTag, Event.call (some apigwListTag) (some m)])
                ++ List.replicate k Event.emit) = s.emitted.length + k
            rw [countEmits_append, hcnt1, countEmits_replicate_emit]
          by_cases hr : (streamLoop (page.items.map (fun rt => RouteInfo.mk a (routeToGetRouteOutput rt)))
              (pushEvents s [Event.wait apigwListTag, Event.call (some apigwListTag) (some m)])).2
          · rw [if_pos hr]; exact hcaa2
          · rw [if_neg hr]
            have hlt2 := sl4 (by simpa using hr) h3
            cases hnt : page.nextToken with
            | some tok => rw [ih _ sl1 hcnt2 hlt2]; exact hcaa2
            | none => exact hcaa2

theorem filterLogEventsPages_nil_eq (m : Int) (s : RunState LogEvent) :
    filterLogEventsPages m [] s = (s, Outcome.ok) := rfl

theorem filterLogEventsPages_error_eq (m : Int) (e : AwsErr)
    (rest : List (Except AwsErr (List LogEvent))) (s : RunState LogEvent) :
    filterLogEventsPages m (Except.error e :: rest) s
      = (pushEvents s [Event.wait logsListTag, Event.call (some logsListTag) (some m)],
          Outcome.err e) := rfl

theorem filterLogEventsPages_ok_eq (m : Int) (evs : List LogEvent)
    (rest : List (Except AwsErr (List LogEvent))) (s : RunState LogEvent) :
    filterLogEventsPages m (Except.ok evs :: rest) s
      = (if (streamLoop evs
              (pushEvents s [Event.wait logsListTag, Event.call (some logsListTag) (some m)])).2
         then ((streamLoop evs
              (pushEvents s [Event.wait logsListTag, Event.call (some logsListTag) (some m)])).1,
            Outcome.ok)
         else filterLogEventsPages m rest
           (streamLoop evs
             (pushEvents s [Event.wait logsListTag, Event.call (some logsListTag) (some m)])).1) := rfl

theorem filterLogEventsPages_le (m : Int) (l : Nat) :
    ∀ (responses : List (Except AwsErr (List LogEvent))) (s : RunState LogEvent),
      s.limit = some l → s.emitted.length ≤ l →
      (filterLogEventsPages m responses s).1.limit = some l ∧
      (filterLogEventsPages m responses s).1.emitted.length ≤ l := by
  intro responses
  induction responses with
  | nil => intro s h1 h2; rw [filterLogEventsPages_nil_eq]; exact ⟨h1, h2⟩
  | cons resp rest ih =>
      intro s h1 h2
      cases resp with
      | error e => rw [filterLogEventsPages_error_eq]; exact ⟨h1, h2⟩
      | ok evs =>
          rw [filterLogEventsPages_ok_eq]
          rcases streamLoop_spec l evs
              (pushEvents s [Event.wait logsListTag, Event.call (some logsListTag) (some m)])
              h1 h2 with ⟨sl1, sl2, _, _⟩
          by_cases hr : (streamLoop evs
              (pushEvents s [Event.wait logsListTag, Event.call (some logsListTag) (some m)])).2
          · rw [if_pos hr]; exact ⟨sl1, sl2⟩
          · rw [if_neg hr]; exact ih _ sl1 sl2

theorem filterLogEventsPages_spec (m : Int) (l : Nat) :
    ∀ (responses : List (Except AwsErr (List LogEvent))) (s : RunState LogEvent),
      s.limit = some l → countEmits s.events = s.emitted.length → s.emitted.length < l →
      callsAfterEmits l (filterLogEventsPages m responses s).1.events
        = callsAfterEmits l s.events := by
  intro responses
  induction responses with
  | nil => intro s h1 h2 h3; rw [filterLogEventsPages_nil_eq]
  | cons resp rest ih =>
      intro s h1 h2 h3
      have hcaa1 : callsAfterEmits l
          (s.events ++ [Event.wait logsListTag, Event.call (some logsListTag) (some m)])
            = callsAfterEmits l s.events := by
        rw [callsAfterEmits_append, callsAfterEmits_waitCall_block (l - countEmits s.events)
          (by omega)]
        omega
      have hcnt1 : countEmits
          (s.events ++ [Event.wait logsListTag, Event.call (some logsListTag) (some m)])
            = s.emitted.length := by
        rw [countEmits_append, countEmits_block]
        omega
      cases resp with
      | error e => rw [filterLogEventsPages_error_eq]; exact hcaa1
      | ok evs =>
          rw [filterLogEventsPages_ok_eq]
          rcases streamLoop_spec l evs
              (pushEvents s [Event.wait logsListTag, Event.call (some logsListTag) (some m)])
              h1 (le_of_lt h3) with ⟨sl1, sl2, ⟨k, hk1, hk2⟩, sl4⟩
          have hcaa2 : callsAfterEmits l
              (streamLoop evs
                (pushEvents s [Event.wait logsListTag, Event.call (some logsListTag) (some m)])).1.events
                = callsAfterEmits l s.events := by
            rw [hk1]
            show callsAfterEmits l
              ((s.events ++ [Event.wait logsListTag, Event.call (some logsListTag) (some m)])
                ++ List.replicate k Event.emit) = _
            rw [callsAfterEmits_append_emits, hcaa1]
          have hcnt2 : countEmits
              (streamLoop evs
                (pushEvents s [Event.wait logsListTag, Event.call (some logsListTag) (some m)])).1.events
                = (streamLoop evs
                    (pushEvents s [Event.wait logsListTag, Event.call (some logsListTag) (some m)])).1.emitted.length := by
            rw [hk1, hk2]
            show countEmits
              ((s.events ++ [Event.wait logsListTag, Event.call (some logsListTag) (some m)])
                ++ List.replicate k Event.emit) = s.emitted.length + k
            rw [countEmits_append, hcnt1, countEmits_replicate_emit]
          by_cases hr : (streamLoop evs
              (pushEvents s [Event.wait logsListTag, Event.call (some logsListTag) (some m)])).2
          · rw [if_pos hr]; exact hcaa2
          · rw [if_neg hr]
            have hlt2 := sl4 (by simpa using hr) h3
            rw [ih _ sl1 hcnt2 hlt2]
            exact hcaa2

theorem listOAIPages_nil_eq (s : RunState OAISummary) :
    listOAIPages [] s = (s, Outcome.exhausted) := rfl

theorem listOAIPages_error_eq (e : AwsErr) (rest : List (Except AwsErr OAIPage))
    (s : RunState OAISummary) :
    listOAIPages (Except.error e :: rest) s
      = (pushEvents s [Event.call none none], Outcome.err e) := rfl

theorem listOAIPages_ok_eq (page : OAIPage) (rest : List (Except AwsErr OAIPage))
    (s : RunState OAISummary) :
    listOAIPages (Except.ok page :: rest) s
      = (if page.isLast
         then (page.items.foldl streamItem (pushEvents s [Event.call none none]), Outcome.ok)
         else listOAIPages rest
           (page.items.foldl streamItem (pushEvents s [Event.call none none]))) := rfl

theorem listOAIPages_le (l : Nat) :
    ∀ (responses : List (Except AwsErr OAIPage)) (s : RunState OAISummary),
      s.limit = some l → s.emitted.length ≤ l →
      (listOAIPages responses s).1.limit = some l ∧
      (listOAIPages responses s).1.emitted.length ≤ l := by
  intro responses
  induction responses with
  | nil => intro s h1 h2; rw [listOAIPages_nil_eq]; exact ⟨h1, h2⟩
  | cons resp rest ih =>
      intro s h1 h2
      cases resp with
      | error e => rw [listOAIPages_error_eq]; exact ⟨h1, h2⟩
      | ok page =>
          rw [listOAIPages_ok_eq]
          rcases foldl_stream_le (fun x : OAISummary => x) l page.items
              (pushEvents s [Event.call none none]) h1 h2 with ⟨f1, f2⟩
          by_cases hl : page.isLast
          · rw [if_pos hl]; exact ⟨f1, f2⟩
          · rw [if_neg hl]; exact ih _ f1 f2

theorem listAliasesPages_nil_eq (fn : String) (s : RunState AliasRowData) :
    listAliasesPages fn [] s = (s, Outcome.exhausted) := rfl

theorem listAliasesPages_error_eq (fn : String) (e : AwsErr)
    (rest : List (Except AwsErr AliasesPage)) (s : RunState AliasRowData) :
    listAliasesPages fn (Except.error e :: rest) s
      = (pushEvents s [Event.call none none], Outcome.err e) := rfl

theorem listAliasesPages_ok_eq (fn : String) (page : AliasesPage)
    (rest : List (Except AwsErr AliasesPage)) (s : RunState AliasRowData) :
    listAliasesPages fn (Except.ok page :: rest) s
      = (if page.lastPage
         then (page.aliases.foldl (fun st a => streamItem st (AliasRowData.mk a fn))
            (pushEvents s [Event.call none none]), Outcome.ok)
         else listAliasesPages fn rest
           (page.aliases.foldl (fun st a => streamItem st (AliasRowData.mk a fn))
             (pushEvents s [Event.call none none]))) := rfl

theorem listAliasesPages_le (fn : String) (l : Nat) :
    ∀ (responses : List (Except AwsErr AliasesPage)) (s : RunState AliasRowData),
      s.limit = some l → s.emitted.length ≤ l →
      (listAliasesPages fn responses s).1.limit = some l ∧
      (listAliasesPages fn responses s).1.emitted.length ≤ l := by
  intro responses
  induction responses with
  | nil => intro s h1 h2; rw [listAliasesPages_nil_eq]; exact ⟨h1, h2⟩
  | cons resp rest ih =>
      intro s h1 h2
      cases resp with
      | error e => rw [listAliasesPages_error_eq]; exact ⟨h1, h2⟩
      | ok page =>
          rw [listAliasesPages_ok_eq]
          rcases foldl_stream_le (fun a => AliasRowData.mk a fn) l page.aliases
              (pushEvents s [Event.call none none]) h1 h2 with ⟨f1, f2⟩
          by_cases hl : page.lastPage
          · rw [if_pos hl]; exact ⟨f1, f2⟩
          · rw [if_neg hl]; exact ih _ f1 f2

/-! ## ClosedTrace preservation through the loops -/

theorem getRoutesPages_closed (a : String) (m : Int) :
    ∀ (responses : List (Except AwsErr RoutesPage)) (s : RunState RouteInfo),
      ClosedTrace s.events → ClosedTrace (getRoutesPages a m responses s).1.events := by
  intro responses
  induction responses with
  | nil => intro s h; rw [getRoutesPages_nil_eq]; exact h
  | cons resp rest ih =>
      intro s h
      have hblock : ClosedTrace
          (pushEvents s [Event.wait apigwListTag, Event.call (some apigwListTag) (some m)]).events :=
        closedTrace_append h (closedTrace_block apigwListTag (some m))
      cases resp with
      | error e => rw [getRoutesPages_error_eq]; exact hblock
      | ok page =>
          rw [getRoutesPages_ok_eq]
          rcases streamLoop_events
              (page.items.map (fun rt => RouteInfo.mk a (routeToGetRouteOutput rt)))
              (pushEvents s [Event.wait apigwListTag, Event.call (some apigwListTag) (some m)])
            with ⟨k, hk⟩
          have h2 : ClosedTrace
              (streamLoop (page.items.map (fun rt => RouteInfo.mk a (routeToGetRouteOutput rt)))
                (pushEvents s [Event.wait apigwListTag, Event.call (some apigwListTag) (some m)])).1.events := by
            rw [hk]
            exact closedTrace_append hblock (closedTrace_replicate_emit k)
          by_cases hr : (streamLoop (page.items.map (fun rt => RouteInfo.mk a (routeToGetRouteOutput rt)))
              (pushEvents s [Event.wait apigwListTag, Event.call (some apigwListTag) (some m)])).2
          · rw [if_pos hr]; exact h2
          · rw [if_neg hr]
            cases hnt : page.nextToken with
            | some tok => exact ih _ h2
            | none => exact h2

theorem filterLogEventsPages_closed (m : Int) :
    ∀ (responses : List (Except AwsErr (List LogEvent))) (s : RunState LogEvent),
      ClosedTrace s.events → ClosedTrace (filterLogEventsPages m responses s).1.events := by
  intro responses
  induction responses with
  | nil => intro s h; rw [filterLogEventsPages_nil_eq]; exact h
  | cons resp rest ih =>
      intro s h
      have hblock : ClosedTrace
          (pushEvents s [Event.wait logsListTag, Event.call (some logsListTag) (some m)]).events :=
        closedTrace_append h (closedTrace_block logsListTag (some m))
      cases resp with
      | error e => rw [filterLogEventsPages_error_eq]; exact hblock
      | ok evs =>
          rw [filterLogEventsPages_ok_eq]
          rcases streamLoop_events evs
              (pushEvents s [Event.wait logsListTag, Event.call (some logsListTag) (some m)])
            with ⟨k, hk⟩
          have h2 : ClosedTrace
              (streamLoop evs
                (pushEvents s [Event.wait logsListTag, Event.call (some logsListTag) (some m)])).1.events := by
            rw [hk]
            exact closedTrace_append hblock (closedTrace_replicate_emit k)
          by_cases hr : (streamLoop evs
              (pushEvents s [Event.wait logsListTag, Event.call (some logsListTag) (some m)])).2
          · rw [if_pos hr]; exact h2
          · rw [if_neg hr]; exact ih _ h2

theorem listOAIPages_closed :
    ∀ (responses : List (Except AwsErr OAIPage)) (s : RunState OAISummary),
      ClosedTrace s.events → ClosedTrace (listOAIPages responses s).1.events := by
  intro responses
  induction responses with
  | nil => intro s h; rw [listOAIPages_nil_eq]; exact h
  | cons resp rest ih =>
      intro s h
      have hblock : ClosedTrace (pushEvents s [Event.call none none]).events :=
        closedTrace_append h (closedTrace_untagged none)
      cases resp with
      | error e => rw [listOAIPages_error_eq]; exact hblock
      | ok page =>
          rw [listOAIPages_ok_eq]
          rcases foldl_stream_events (fun x : OAISummary => x) page.items
              (pushEvents s [Event.call none none]) with ⟨k, hk⟩
          have h2 : ClosedTrace
              (page.items.foldl streamItem (pushEvents s [Event.call none none])).events := by
            rw [hk]
            exact closedTrace_append hblock (closedTrace_replicate_emit k)
          by_cases hl : page.isLast
          · rw [if_pos hl]; exact h2
          · rw [if_neg hl]; exact ih _ h2

theorem listAliasesPages_closed (fn : String) :
    ∀ (responses : List (Except AwsErr AliasesPage)) (s : RunState AliasRowData),
      ClosedTrace s.events → ClosedTrace (listAliasesPages fn responses s).1.events := by
  intro responses
  induction responses with
  | nil => intro s h; rw [listAliasesPages_nil_eq]; exact h
  | cons resp rest ih =>
      intro s h
      have hblock : ClosedTrace (pushEvents s [Event.call none none]).events :=
        closedTrace_append h (closedTrace_untagged none)
      cases resp with
      | error e => rw [listAliasesPages_error_eq]; exact hblock
      | ok page =>
          rw [listAliasesPages_ok_eq]
          rcases foldl_stream_events (fun a => AliasRowData.mk a fn) page.aliases
              (pushEvents s [Event.call none none]) with ⟨k, hk⟩
          have h2 : ClosedTrace
              (page.aliases.foldl (fun st a => streamItem st (AliasRowData.mk a fn))
                (pushEvents s [Event.call none none])).events := by
            rw [hk]
            exact closedTrace_append hblock (closedTrace_replicate_emit k)
          by_cases hl : page.lastPage
          · rw [if_pos hl]; exact h2
          · rw [if_neg hl]; exact ih _ h2

/-! ## The requested page size is the same on every call -/

theorem callSizesFixed_nil (m : Int) : callSizesFixed m [] := by
  intro t sz h
  exact absurd h (List.not_mem_nil _)

theorem callSizesFixed_append {m : Int} {es fs : List Event}
    (h1 : callSizesFixed m es) (h2 : callSizesFixed m fs) :
    callSizesFixed m (es ++ fs) := by
  intro t sz h
  rcases List.mem_append.1 h with h | h
  · exact h1 t sz h
  · exact h2 t sz h

theorem callSizesFixed_block (m : Int) (t : Tag) :
    callSizesFixed m [Event.wait t, Event.call (some t) (some m)] := by
  intro t1 sz h
  rcases List.mem_cons.1 h with h | h
  · exact Event.noConfusion h
  · rcases List.mem_cons.1 h with h | h
    · injection h with h1 h2
    · exact absurd h (List.not_mem_nil _)

theorem callSizesFixed_replicate (m : Int) (k : Nat) :
    callSizesFixed m (List.replicate k Event.emit) := by
  intro t sz h
  exact Event.noConfusion (List.eq_of_mem_replicate h)

theorem getRoutesPages_sizes (a : String) (m : Int) :
    ∀ (responses : List (Except AwsErr RoutesPage)) (s : RunState RouteInfo),
      callSizesFixed m s.events → callSizesFixed m (getRoutesPages a m responses s).1.events := by
  intro responses
  induction responses with
  | nil => intro s h; rw [getRoutesPages_nil_eq]; exact h
  | cons resp rest ih =>
      intro s h
      have hblock : callSizesFixed m
          (pushEvents s [Event.wait apigwListTag, Event.call (some apigwListTag) (some m)]).events :=
        callSizesFixed_append h (callSizesFixed_block m apigwListTag)
      cases resp with
      | error e => rw [getRoutesPages_error_eq]; exact hblock
      | ok page =>
          rw [getRoutesPages_ok_eq]
          rcases streamLoop_events
              (page.items.map (fun rt => RouteInfo.mk a (routeToGetRouteOutput rt)))
              (pushEvents s [Event.wait apigwListTag, Event.call (some apigwListTag) (some m)])
            with ⟨k, hk⟩
          have h2 : callSizesFixed m
              (streamLoop (page.items.map (fun rt => RouteInfo.mk a (routeToGetRouteOutput rt)))
                (pushEvents s [Event.wait apigwListTag, Event.call (some apigwListTag) (some m)])).1.events := by
            rw [hk]
            exact callSizesFixed_append hblock (callSizesFixed_replicate m k)
          by_cases hr : (streamLoop (page.items.map (fun rt => RouteInfo.mk a (routeToGetRouteOutput rt)))
              (pushEvents s [Event.wait apigwListTag, Event.call (some apigwListTag) (some m)])).2
          · rw [if_pos hr]; exact h2
          · rw [if_neg hr]
            cases hnt : page.nextToken with
            | some tok => exact ih _ h2
            | none => exact h2

theorem filterLogEventsPages_sizes (m : Int) :
    ∀ (responses : List (Except AwsErr (List LogEvent))) (s : RunState LogEvent),
      callSizesFixed m s.events → callSizesFixed m (filterLogEventsPages m responses s).1.events := by
  intro responses
  induction responses with
  | nil => intro s h; rw [filterLogEventsPages_nil_eq]; exact h
  | cons resp rest ih =>
      intro s h
      have hblock : callSizesFixed m
          (pushEvents s [Event.wait logsListTag, Event.call (some logsListTag) (some m)]).events :=
        callSizesFixed_append h (callSizesFixed_block m logsListTag)
      cases resp with
      | error e => rw [filterLogEventsPages_error_eq]; exact hblock
      | ok evs =>
          rw [filterLogEventsPages_ok_eq]
          rcases streamLoop_events evs
              (pushEvents s [Event.wait logsListTag, Event.call (some logsListTag) (some m)])
            with ⟨k, hk⟩
          have h2 : callSizesFixed m
              (streamLoop evs
                (pushEvents s [Event.wait logsListTag, Event.call (some logsListTag) (some m)])).1.events := by
            rw [hk]
            exact callSizesFixed_append hblock (callSizesFixed_replicate m k)
          by_cases hr : (streamLoop evs
              (pushEvents s [Event.wait logsListTag, Event.call (some logsListTag) (some m)])).2
          · rw [if_pos hr]; exact h2
          · rw [if_neg hr]; exact ih _ h2

/-! ## Error propagation with no caller limit -/

theorem streamItem_noLimit {α : Type} (s : RunState α) (x : α) (h : s.limit = none) :
    streamItem s x
      = { s with emitted := s.emitted ++ [x], events := s.events ++ [Event.emit] } := by
  unfold streamItem
  rw [h]

theorem streamLoop_noLimit {α : Type} :
    ∀ (items : List α) (s : RunState α), s.limit = none →
      streamLoop items s
        = ({ limit := none, emitted := s.emitted ++ items,
             events := s.events ++ items.map (fun _ => Event.emit) }, false) := by
  intro items
  induction items with
  | nil =>
      intro s h
      rw [streamLoop_nil_eq]
      cases s with
      | mk lim em ev =>
          simp only at h
          subst h
          simp
  | cons x items ih =>
      intro s h
      rw [streamLoop_cons_eq]
      have hlim1 : (streamItem s x).limit = none := by rw [streamItem_limit]; exact h
      have hz : rowsRemainingZero (streamItem s x) = false := by
        unfold rowsRemainingZero rowsRemaining
        rw [hlim1]
        rfl
      rw [hz]
      simp only [Bool.false_eq_true, if_false]
      rw [ih (streamItem s x) hlim1, streamItem_noLimit s x h]
      simp [List.append_assoc]

theorem getRoutesPages_error_noLimit (a : String) (m : Int) (e : AwsErr)
    (rest : List (Except AwsErr RoutesPage)) :
    ∀ (pre : List (Except AwsErr RoutesPage)) (s : RunState RouteInfo),
      s.limit = none →
      (∀ r ∈ pre, ∃ page, r = Except.ok page ∧ page.nextToken ≠ none) →
      (getRoutesPages a m (pre ++ Except.error e :: rest) s).2 = Outcome.err e ∧
      (getRoutesPages a m (pre ++ Except.error e :: rest) s).1.emitted
        = s.emitted ++ routesDelivered a pre := by
  intro pre
  induction pre with
  | nil =>
      intro s hlim hpre
      rw [List.nil_append, getRoutesPages_error_eq]
      exact ⟨rfl, by simp [routesDelivered, pushEvents_emitted]⟩
  | cons r pre ih =>
      intro s hlim hpre
      rcases hpre r (List.mem_cons_self r _) with ⟨page, hr, hnt⟩
      subst hr
      rw [List.cons_append, getRoutesPages_ok_eq]
      have hlim1 : (pushEvents s
          [Event.wait apigwListTag, Event.call (some apigwListTag) (some m)]).limit = none := hlim
      rw [streamLoop_noLimit _ _ hlim1]
      simp only [Bool.false_eq_true, if_false]
      cases hnt2 : page.nextToken with
      | none => exact absurd hnt2 hnt
      | some tok =>
          rcases ih (RunState.mk none
              ((pushEvents s
                [Event.wait apigwListTag, Event.call (some apigwListTag) (some m)]).emitted
                ++ page.items.map (fun rt => RouteInfo.mk a (routeToGetRouteOutput rt)))
              ((pushEvents s
                [Event.wait apigwListTag, Event.call (some apigwListTag) (some m)]).events
                ++ (page.items.map (fun rt => RouteInfo.mk a (routeToGetRouteOutput rt))).map
                    (fun _ => Event.emit))) rfl
              (fun r hr => hpre r (List.mem_cons_of_mem _ hr)) with ⟨ih1, ih2⟩
          refine ⟨ih1, ?_⟩
          rw [ih2]
          simp [routesDelivered, pushEvents_emitted, List.append_assoc]

theorem filterLogEventsPages_error_noLimit (m : Int) (e : AwsErr)
    (rest : List (Except AwsErr (List LogEvent))) :
    ∀ (pre : List (Except AwsErr (List LogEvent))) (s : RunState LogEvent),
      s.limit = none →
      (∀ r ∈ pre, ∃ evs, r = Except.ok evs) →
      (filterLogEventsPages m (pre ++ Except.error e :: rest) s).2 = Outcome.err e ∧
      (filterLogEventsPages m (pre ++ Except.error e :: rest) s).1.emitted
        = s.emitted ++ logEventsDelivered pre := by
  intro pre
  induction pre with
  | nil =>
      intro s hlim hpre
      rw [List.nil_append, filterLogEventsPages_error_eq]
      exact ⟨rfl, by simp [logEventsDelivered, pushEvents_emitted]⟩
  | cons r pre ih =>
      intro s hlim hpre
      rcases hpre r (List.mem_cons_self r _) with ⟨evs, hr⟩
      subst hr
      rw [List.cons_append, filterLogEventsPages_ok_eq]
      have hlim1 : (pushEvents s
          [Event.wait logsListTag, Event.call (some logsListTag) (some m)]).limit = none := hlim
      rw [streamLoop_noLimit _ _ hlim1]
      simp only [Bool.false_eq_true, if_false]
      rcases ih (RunState.mk none
          ((pushEvents s
            [Event.wait logsListTag, Event.call (some logsListTag) (some m)]).emitted ++ evs)
          ((pushEvents s
            [Event.wait logsListTag, Event.call (some logsListTag) (some m)]).events
            ++ evs.map (fun _ => Event.emit))) rfl
          (fun r hr => hpre r (List.mem_cons_of_mem _ hr)) with ⟨ih1, ih2⟩
      refine ⟨ih1, ?_⟩
      rw [ih2]
      simp [logEventsDelivered, pushEvents_emitted, List.append_assoc]

/-! ## Hydrate memoization lemmas -/

theorem resolveColumns_inv {α : Type} (f : String → α) :
    ∀ (cols : List (Option String)) (memo : List (String × α)),
      (resolveColumns f cols memo).2.Nodup ∧
      ∀ i ∈ (resolveColumns f cols memo).2, i ∉ memo.map Prod.fst := by
  intro cols
  induction cols with
  | nil =>
      intro memo
      exact ⟨List.nodup_nil, fun i hi => absurd hi (List.not_mem_nil _)⟩
  | cons c cols ih =>
      intro memo
      cases c with
      | none => exact ih memo
      | some i =>
          have heq : resolveColumns f (some i :: cols) memo
              = if i ∈ memo.map Prod.fst then resolveColumns f cols memo
                else ((resolveColumns f cols (memo ++ [(i, f i)])).1,
                      i :: (resolveColumns f cols (memo ++ [(i, f i)])).2) := rfl
          rw [heq]
          by_cases hm : i ∈ memo.map Prod.fst
          · rw [if_pos hm]
            exact ih memo
          · rw [if_neg hm]
            rcases ih (memo ++ [(i, f i)]) with ⟨hnd, hni⟩
            constructor
            · refine List.nodup_cons.2 ⟨?_, hnd⟩
              intro hmem
              apply hni i hmem
              rw [List.map_append]
              exact List.mem_append.2 (Or.inr (by simp))
            · intro j hj
              rcases List.mem_cons.1 hj with hj | hj
              · subst hj
                exact hm
              · intro hjm
                exact hni j hj (by rw [List.map_append]; exact List.mem_append.2 (Or.inl hjm))

/-! ## Top-level equations for the list functions -/

theorem listAPIGatewayV2Routes_error_eq (e : AwsErr) (a : String) (limit : Option Nat) :
    listAPIGatewayV2Routes (Except.error e) a limit
      = (RunState.mk limit [] [], Outcome.err e) := rfl

theorem listAPIGatewayV2Routes_none_eq (a : String) (limit : Option Nat) :
    listAPIGatewayV2Routes (Except.ok none) a limit
      = (RunState.mk limit [] [], Outcome.ok) := rfl

theorem listAPIGatewayV2Routes_some_eq (responses : List (Except AwsErr RoutesPage))
    (a : String) (limit : Option Nat) :
    listAPIGatewayV2Routes (Except.ok (some responses)) a limit
      = getRoutesPages a (computeMaxLimit 500 limit) responses (RunState.mk limit [] []) := rfl

theorem listCloudwatchLogTrailEvents_error_eq (e : AwsErr)
    (eq1 : String → Option String) (ts : List TsQual) (limit : Option Nat) :
    listCloudwatchLogTrailEvents (Except.error e) eq1 ts limit
      = (RunState.mk limit [] [], Outcome.err e, none) := rfl

theorem listCloudwatchLogTrailEvents_ok_eq (responses : List (Except AwsErr (List LogEvent)))
    (eq1 : String → Option String) (ts : List TsQual) (limit : Option Nat) :
    listCloudwatchLogTrailEvents (Except.ok responses) eq1 ts limit
      = ((filterLogEventsPages (computeMaxLimit 10000 limit) responses (RunState.mk limit [] [])).1,
         (filterLogEventsPages (computeMaxLimit 10000 limit) responses (RunState.mk limit [] [])).2,
         some (buildFilterLogEventsInput eq1 ts (computeMaxLimit 10000 limit))) := rfl

theorem listCloudFrontOriginAccessIdentities_error_eq (e : AwsErr) (limit : Option Nat) :
    listCloudFrontOriginAccessIdentities (Except.error e) limit
      = (RunState.mk limit [] [], Outcome.err e) := rfl

theorem listCloudFrontOriginAccessIdentities_ok_eq (responses : List (Except AwsErr OAIPage))
    (limit : Option Nat) :
    listCloudFrontOriginAccessIdentities (Except.ok responses) limit
      = listOAIPages responses (RunState.mk limit [] []) := rfl

theorem listLambdaAliases_error_eq (e : AwsErr) (fn : String) (limit : Option Nat) :
    listLambdaAliases (Except.error e) fn limit
      = (RunState.mk limit [] [], Outcome.err e) := rfl

theorem listLambdaAliases_ok_eq (responses : List (Except AwsErr AliasesPage))
    (fn : String) (limit : Option Nat) :
    listLambdaAliases (Except.ok responses) fn limit
      = listAliasesPages fn responses (RunState.mk limit [] []) := rfl

/-! ## Claims -/

/-- C1 (counterexample): the claim states that once L rows have been
emitted a list function issues no further provider calls, for every
table. It fails on listCloudFrontOriginAccessIdentities, which never
checks the remaining row budget: with row limit 1 and two pages of one
item each, a second provider call is issued after the first (and only)
row was emitted. -/
theorem claim_C1_counterexample :
    ¬ (callsAfterEmits 1
        (listCloudFrontOriginAccessIdentities (Except.ok
          [Except.ok (OAIPage.mk [OAISummary.mk "A" none] false),
           Except.ok (OAIPage.mk [OAISummary.mk "B" none] true)]) (some 1)).1.events = 0) := by
  decide

/-- C1 (amended): every list function emits at most L rows; the list
functions that check d.RowsRemaining after each streamed item
(listAPIGatewayV2Routes and listCloudwatchLogTrailEvents) also issue no
provider call after the L-th row is emitted, for every L at least 1; the
callback-style list functions (listCloudFrontOriginAccessIdentities and
listLambdaAliases) may keep issuing provider calls after the limit but
still emit at most L rows. -/
theorem claim_C1_amended :
    (∀ (client : Except AwsErr (Option (List (Except AwsErr RoutesPage))))
        (apiId : String) (l : Nat),
      (listAPIGatewayV2Routes client apiId (some l)).1.emitted.length ≤ l ∧
      (1 ≤ l →
        callsAfterEmits l (listAPIGatewayV2Routes client apiId (some l)).1.events = 0)) ∧
    (∀ (client : Except AwsErr (List (Except AwsErr (List LogEvent))))
        (eq1 : String → Option String) (ts : List TsQual) (l : Nat),
      (listCloudwatchLogTrailEvents client eq1 ts (some l)).1.emitted.length ≤ l ∧
      (1 ≤ l →
        callsAfterEmits l (listCloudwatchLogTrailEvents client eq1 ts (some l)).1.events = 0)) ∧
    (∀ (client : Except AwsErr (List (Except AwsErr OAIPage))) (l : Nat),
      (listCloudFrontOriginAccessIdentities client (some l)).1.emitted.length ≤ l) ∧
    (∀ (client : Except AwsErr (List (Except AwsErr AliasesPage))) (fn : String) (l : Nat),
      (listLambdaAliases client fn (some l)).1.emitted.length ≤ l) := by
  refine ⟨?_, ?_, ?_, ?_⟩
  · intro client apiId l
    cases client with
    | error e =>
        rw [listAPIGatewayV2Routes_error_eq]
        exact ⟨Nat.zero_le l, fun _ => callsAfterEmits_nil l⟩
    | ok oc =>
        cases oc with
        | none =>
            rw [listAPIGatewayV2Routes_none_eq]
            exact ⟨Nat.zero_le l, fun _ => callsAfterEmits_nil l⟩
        | some responses =>
            rw [listAPIGatewayV2Routes_some_eq]
            refine ⟨(getRoutesPages_le apiId (computeMaxLimit 500 (some l)) l responses
              (RunState.mk (some l) [] []) rfl (Nat.zero_le l)).2, fun hl => ?_⟩
            rw [getRoutesPages_spec apiId (computeMaxLimit 500 (some l)) l responses
              (RunState.mk (some l) [] []) rfl rfl (by simp; omega)]
            exact callsAfterEmits_nil l
  · intro client eq1 ts l
    cases client with
    | error e =>
        rw [listCloudwatchLogTrailEvents_error_eq]
        exact ⟨Nat.zero_le l, fun _ => callsAfterEmits_nil l⟩
    | ok responses =>
        rw [listCloudwatchLogTrailEvents_ok_eq]
        refine ⟨(filterLogEventsPages_le (computeMaxLimit 10000 (some l)) l responses
          (RunState.mk (some l) [] []) rfl (Nat.zero_le l)).2, fun hl => ?_⟩
        rw [filterLogEventsPages_spec (computeMaxLimit 10000 (some l)) l responses
          (RunState.mk (some l) [] []) rfl rfl (by simp; omega)]
        exact callsAfterEmits_nil l
  · intro client l
    cases client with
    | error e =>
        rw [listCloudFrontOriginAccessIdentities_error_eq]
        exact Nat.zero_le l
    | ok responses =>
        rw [listCloudFrontOriginAccessIdentities_ok_eq]
        exact (listOAIPages_le l responses (RunState.mk (some l) [] []) rfl (Nat.zero_le l)).2
  · intro client fn l
    cases client with
    | error e =>
        rw [listLambdaAliases_error_eq]
        exact Nat.zero_le l
    | ok responses =>
        rw [listLambdaAliases_ok_eq]
        exact (listAliasesPages_le fn l responses (RunState.mk (some l) [] []) rfl
          (Nat.zero_le l)).2

/-- C1 (amended, witness): the amended claim instantiated at limit 2 with
one single-item page. -/
theorem claim_C1_amended_witness :
    1 ≤ 2 ∧
    (listAPIGatewayV2Routes (Except.ok (some
        [Except.ok (RoutesPage.mk [Route.mk (some "r1") none none] none)]))
      "api" (some 2)).1.emitted.length ≤ 2 ∧
    callsAfterEmits 2
      (listAPIGatewayV2Routes (Except.ok (some
          [Except.ok (RoutesPage.mk [Route.mk (some "r1") none none] none)]))
        "api" (some 2)).1.events = 0 := by
  refine ⟨by decide, ?_, ?_⟩
  · exact (claim_C1_amended.1 (Except.ok (some
      [Except.ok (RoutesPage.mk [Route.mk (some "r1") none none] none)])) "api" 2).1
  · exact (claim_C1_amended.1 (Except.ok (some
      [Except.ok (RoutesPage.mk [Route.mk (some "r1") none none] none)])) "api" 2).2
      (by decide)

/-- C2: for every row and every hydrate function identity, the hydrate
function is invoked at most once for that row, however many requested
columns declare it; in particular, resolving the policy and policy_std
columns of aws_lambda_alias, which share getLambdaAliasPolicy, performs
exactly one invocation. -/
theorem claim_C2 :
    (∀ (α : Type) (f : String → α) (cols : List (Option String)) (i : String),
      (resolveColumns f cols []).2.count i ≤ 1) ∧
    (∀ (α : Type) (f : String → α),
      (resolveColumns f
          (projectionHydrates tableAwsLambdaAliasColumnHydrates ["policy", "policy_std"]) []).2
        = ["getLambdaAliasPolicy"]) := by
  constructor
  · intro α f cols i
    exact List.nodup_iff_count_le_one.1 (resolveColumns_inv f cols []).1 i
  · intro α f
    rfl

/-- C3: when a provider list call fails partway through pagination, the
items already streamed from the earlier pages remain delivered and the
list function returns that error (for listAPIGatewayV2Routes and
listCloudwatchLogTrailEvents, with no caller row limit interfering). -/
theorem claim_C3 :
    ∀ (apiId : String) (preR restR : List (Except AwsErr RoutesPage)) (e1 : AwsErr)
      (eq1 : String → Option String) (ts : List TsQual)
      (preC restC : List (Except AwsErr (List LogEvent))) (e2 : AwsErr),
      (∀ r ∈ preR, ∃ page, r = Except.ok page ∧ page.nextToken ≠ none) →
      (∀ r ∈ preC, ∃ evs, r = Except.ok evs) →
      ((listAPIGatewayV2Routes (Except.ok (some (preR ++ Except.error e1 :: restR)))
          apiId none).2 = Outcome.err e1 ∧
        (listAPIGatewayV2Routes (Except.ok (some (preR ++ Except.error e1 :: restR)))
          apiId none).1.emitted = routesDelivered apiId preR) ∧
      ((listCloudwatchLogTrailEvents (Except.ok (preC ++ Except.error e2 :: restC))
          eq1 ts none).2.1 = Outcome.err e2 ∧
        (listCloudwatchLogTrailEvents (Except.ok (preC ++ Except.error e2 :: restC))
          eq1 ts none).1.emitted = logEventsDelivered preC) := by
  intro apiId preR restR e1 eq1 ts preC restC e2 h1 h2
  constructor
  · rw [listAPIGatewayV2Routes_some_eq]
    rcases getRoutesPages_error_noLimit apiId (computeMaxLimit 500 none) e1 restR preR
      (RunState.mk none [] []) rfl h1 with ⟨ha, hb⟩
    refine ⟨ha, ?_⟩
    rw [hb]
    simp
  · rw [listCloudwatchLogTrailEvents_ok_eq]
    rcases filterLogEventsPages_error_noLimit (computeMaxLimit 10000 none) e2 restC preC
      (RunState.mk none [] []) rfl h2 with ⟨ha, hb⟩
    refine ⟨ha, ?_⟩
    rw [hb]
    simp

/-- C3 (witness): one successful page followed by a failing call, for
both list functions. -/
theorem claim_C3_witness :
    (∀ r ∈ ([Except.ok (RoutesPage.mk [Route.mk (some "r1") none none] (some "tok"))]
        : List (Except AwsErr RoutesPage)),
        ∃ page, r = Except.ok page ∧ page.nextToken ≠ none) ∧
    (∀ r ∈ ([Except.ok [LogEvent.mk (some "ev1") none none]]
        : List (Except AwsErr (List LogEvent))),
        ∃ evs, r = Except.ok evs) ∧
    ((listAPIGatewayV2Routes (Except.ok (some
        ([Except.ok (RoutesPage.mk [Route.mk (some "r1") none none] (some "tok"))]
          ++ Except.error (AwsErr.generic "boom") :: []))) "api" none).2
        = Outcome.err (AwsErr.generic "boom") ∧
      (listAPIGatewayV2Routes (Except.ok (some
        ([Except.ok (RoutesPage.mk [Route.mk (some "r1") none none] (some "tok"))]
          ++ Except.error (AwsErr.generic "boom") :: []))) "api" none).1.emitted
        = routesDelivered "api"
            [Except.ok (RoutesPage.mk [Route.mk (some "r1") none none] (some "tok"))]) ∧
    ((listCloudwatchLogTrailEvents (Except.ok
        ([Except.ok [LogEvent.mk (some "ev1") none none]]
          ++ Except.error (AwsErr.aws "Throttling" "slow") :: []))
        (fun _ => none) [] none).2.1 = Outcome.err (AwsErr.aws "Throttling" "slow") ∧
      (listCloudwatchLogTrailEvents (Except.ok
        ([Except.ok [LogEvent.mk (some "ev1") none none]]
          ++ Except.error (AwsErr.aws "Throttling" "slow") :: []))
        (fun _ => none) [] none).1.emitted
        = logEventsDelivered [Except.ok [LogEvent.mk (some "ev1") none none]]) := by
  have h1 : ∀ r ∈ ([Except.ok (RoutesPage.mk [Route.mk (some "r1") none none] (some "tok"))]
      : List (Except AwsErr RoutesPage)),
      ∃ page, r = Except.ok page ∧ page.nextToken ≠ none := by
    intro r hr
    rcases List.mem_cons.1 hr with h | h
    · subst h
      exact ⟨_, rfl, by simp⟩
    · exact absurd h (List.not_mem_nil _)
  have h2 : ∀ r ∈ ([Except.ok [LogEvent.mk (some "ev1") none none]]
      : List (Except AwsErr (List LogEvent))), ∃ evs, r = Except.ok evs := by
    intro r hr
    rcases List.mem_cons.1 hr with h | h
    · subst h
      exact ⟨_, rfl⟩
    · exact absurd h (List.not_mem_nil _)
  rcases claim_C3 "api"
      [Except.ok (RoutesPage.mk [Route.mk (some "r1") none none] (some "tok"))] []
      (AwsErr.generic "boom") (fun _ => none) []
      [Except.ok [LogEvent.mk (some "ev1") none none]] []
      (AwsErr.aws "Throttling" "slow") h1 h2 with ⟨hc1, hc2⟩
  exact ⟨h1, h2, hc1, hc2⟩

theorem toInt32_lt (n : Nat) : toInt32 n < 2 ^ 31 := by
  unfold toInt32
  have h1 : ((n : Int) + 2 ^ 31) % 2 ^ 32 < 2 ^ 32 := Int.emod_lt_of_pos _ (by norm_num)
  omega

theorem toInt32_ge (n : Nat) : -(2 ^ 31) ≤ toInt32 n := by
  unfold toInt32
  have h1 : 0 ≤ ((n : Int) + 2 ^ 31) % 2 ^ 32 := Int.emod_nonneg _ (by norm_num)
  omega

theorem toInt32_of_lt (n : Nat) (h : (n : Int) < 2 ^ 31) : toInt32 n = n := by
  unfold toInt32
  have hn : (0 : Int) ≤ (n : Int) := Int.natCast_nonneg n
  rw [Int.emod_eq_of_lt (by omega) (by omega)]
  omega

/-- C4 (counterexample): the claim states that the page size requested
from the provider equals min(ceiling, remaining budget) on every page.
It fails on listAPIGatewayV2Routes: with caller limit 3 and a first page
of two items, the second call still requests 3 even though the remaining
budget is 1. -/
theorem claim_C4_counterexample :
    pageSizesMatchRemaining 500 3
      (listAPIGatewayV2Routes (Except.ok (some
        [Except.ok (RoutesPage.mk
            [Route.mk (some "r1") none none, Route.mk (some "r2") none none] (some "tok")),
         Except.ok (RoutesPage.mk [Route.mk (some "r3") none none] none)]))
        "api" (some 3)).1.events = false := by
  decide

/-- C4 (amended): the page size is computed once, before pagination, as
min(ceiling, int32 of the initial caller limit) with values below 1
clamped to 1, and that same size is requested on every page: it is never
below 1, a missing limit leaves the ceiling, and for limits below 2^31 a
limit below 1 clamps to 1, a limit between 1 and the ceiling is used as
is, and a limit at or above the ceiling leaves the ceiling in effect. -/
theorem claim_C4_amended :
    ∀ (ceiling : Int) (l : Nat), 1 ≤ ceiling →
      (1 ≤ computeMaxLimit ceiling (some l) ∧ computeMaxLimit ceiling none = ceiling ∧
        ((l : Int) < 2 ^ 31 →
          ((l : Int) < 1 → computeMaxLimit ceiling (some l) = 1) ∧
          (1 ≤ (l : Int) → (l : Int) < ceiling → computeMaxLimit ceiling (some l) = (l : Int)) ∧
          (ceiling ≤ (l : Int) → computeMaxLimit ceiling (some l) = ceiling))) ∧
      (∀ (client : Except AwsErr (Option (List (Except AwsErr RoutesPage))))
          (apiId : String) (limit : Option Nat),
        callSizesFixed (computeMaxLimit 500 limit)
          (listAPIGatewayV2Routes client apiId limit).1.events) ∧
      (∀ (client : Except AwsErr (List (Except AwsErr (List LogEvent))))
          (eq1 : String → Option String) (ts : List TsQual) (limit : Option Nat),
        callSizesFixed (computeMaxLimit 10000 limit)
          (listCloudwatchLogTrailEvents client eq1 ts limit).1.events) := by
  intro ceiling l hc
  have hb1 := toInt32_lt l
  have hb2 := toInt32_ge l
  refine ⟨⟨?_, rfl, ?_⟩, ?_, ?_⟩
  · simp only [computeMaxLimit]
    split_ifs <;> omega
  · intro h31
    have hval : computeMaxLimit ceiling (some l)
        = if (l : Int) < ceiling then (if (l : Int) < 1 then 1 else (l : Int)) else ceiling := by
      simp only [computeMaxLimit]
      rw [toInt32_of_lt l h31]
    refine ⟨?_, ?_, ?_⟩
    · intro h
      rw [hval]
      split_ifs <;> omega
    · intro h h2
      rw [hval]
      split_ifs <;> omega
    · intro h
      rw [hval]
      split_ifs <;> omega
  · intro client apiId limit
    cases client with
    | error e =>
        rw [listAPIGatewayV2Routes_error_eq]
        exact callSizesFixed_nil _
    | ok oc =>
        cases oc with
        | none =>
            rw [listAPIGatewayV2Routes_none_eq]
            exact callSizesFixed_nil _
        | some responses =>
            rw [listAPIGatewayV2Routes_some_eq]
            exact getRoutesPages_sizes apiId (computeMaxLimit 500 limit) responses
              (RunState.mk limit [] []) (callSizesFixed_nil _)
  · intro client eq1 ts limit
    cases client with
    | error e =>
        rw [listCloudwatchLogTrailEvents_error_eq]
        exact callSizesFixed_nil _
    | ok responses =>
        rw [listCloudwatchLogTrailEvents_ok_eq]
        exact filterLogEventsPages_sizes (computeMaxLimit 10000 limit) responses
          (RunState.mk limit [] []) (callSizesFixed_nil _)

/-- C4 (amended, witness): ceiling 500 with caller limit 3 gives page
size 3 on every call. -/
theorem claim_C4_amended_witness :
    (1 : Int) ≤ 500 ∧ ((3 : Nat) : Int) < 2 ^ 31 ∧ 1 ≤ ((3 : Nat) : Int) ∧
    ((3 : Nat) : Int) < 500 ∧ computeMaxLimit 500 (some 3) = ((3 : Nat) : Int) := by
  refine ⟨by norm_num, by norm_num, by norm_num, by norm_num, ?_⟩
  exact ((claim_C4_amended 500 3 (by norm_num)).1.2.2 (by norm_num)).2.1
    (by norm_num) (by norm_num)

/-- C5: a Get request for aws_lambda_alias with the name or function_name
key column missing or empty, or with the region key different from the
current matrix region, returns no row and no error and issues no provider
call. -/
theorem claim_C5 :
    ∀ (svc : Except AwsErr (GetAliasInput → Except AwsErr AliasConfiguration))
      (quals : String → Option String) (matrixRegion : String),
      ((quals "name").getD "" = "" ∨ (quals "function_name").getD "" = "" ∨
        (quals "region").getD "" ≠ matrixRegion) →
      getLambdaAlias svc quals matrixRegion = (none, none, []) := by
  intro svc quals matrixRegion h
  simp only [getLambdaAlias]
  rw [if_pos h]

/-- C5 (witness): a Get request with no quals at all yields no row, no
error and no provider call. -/
theorem claim_C5_witness :
    (((fun _ => none : String → Option String) "name").getD "" = "" ∧
    getLambdaAlias (Except.ok (fun _ => Except.error (AwsErr.generic "unused")))
      (fun _ => none) "us-east-1" = (none, none, [])) := by
  refine ⟨rfl, ?_⟩
  exact claim_C5 (Except.ok (fun _ => Except.error (AwsErr.generic "unused")))
    (fun _ => none) "us-east-1" (Or.inl rfl)

/-- C6: when the service client resolves to nil (unsupported region), the
aws_api_gatewayv2_route List and Get operations both produce zero rows,
zero provider calls and no error. -/
theorem claim_C6 :
    ∀ (apiId : String) (limit : Option Nat) (quals : String → Option String),
      listAPIGatewayV2Routes (Except.ok none) apiId limit
        = (RunState.mk limit [] [], Outcome.ok) ∧
      getAPIGatewayV2Route (Except.ok none) quals = (none, none, []) :=
  fun _ _ _ => ⟨rfl, rfl⟩

theorem buildQueryFilter_congr :
    ∀ (ps : List (String × String)) (eq1 eq2 : String → Option String),
      (∀ c ∈ ps.map Prod.fst, eq1 c = eq2 c) →
      ps.filterMap (fun p => (eq1 p.1).map (fun v => filterClause p.2 v))
        = ps.filterMap (fun p => (eq2 p.1).map (fun v => filterClause p.2 v)) := by
  intro ps
  induction ps with
  | nil => intro eq1 eq2 _; rfl
  | cons p ps ih =>
      intro eq1 eq2 h
      have hp : eq1 p.1 = eq2 p.1 := h p.1 (List.mem_cons_self _ _)
      rw [List.filterMap_cons, List.filterMap_cons, hp,
        ih eq1 eq2 (fun c hc => h c (List.mem_cons_of_mem _ hc))]

theorem applyTimestampQuals_noRange :
    ∀ (ts : List TsQual) (inp : FilterLogEventsInput),
      (∀ q ∈ ts, q.op ∉ (["=", ">=", ">", "<", "<="] : List String)) →
      applyTimestampQuals ts inp = inp := by
  intro ts
  induction ts with
  | nil => intro inp _; rfl
  | cons q ts ih =>
      intro inp h
      have hq := h q (List.mem_cons_self _ _)
      have h1 : ¬ q.op = "=" := fun he => hq (by simp [he])
      have h2 : ¬ (q.op = ">=" ∨ q.op = ">") := fun he => hq (by rcases he with he | he <;> simp [he])
      have h3 : ¬ (q.op = "<" ∨ q.op = "<=") := fun he => hq (by rcases he with he | he <;> simp [he])
      have hstep : applyTimestampQuals (q :: ts) inp
          = applyTimestampQuals ts
              (if q.op = "=" then
                { inp with startTime := some (q.seconds * 1000),
                           endTime := some (q.seconds * 1000) }
               else if q.op = ">=" ∨ q.op = ">" then
                { inp with startTime := some (q.seconds * 1000) }
               else if q.op = "<" ∨ q.op = "<=" then
                { inp with endTime := some (q.seconds * 1000) }
               else inp) := rfl
      rw [hstep, if_neg h1, if_neg h2, if_neg h3]
      exact ih inp (fun p hp => h p (List.mem_cons_of_mem _ hp))

/-- C7: the provider filter only ever contains predicates on pushdownable
columns with a supported operator: every clause of buildQueryFilter comes
from a column of the declared filterQuals map holding an equals-qual; two
qual maps agreeing on the declared pushdown columns build the same
FilterLogEventsInput, so a predicate on any other column is never added;
and timestamp quals set the StartTime / EndTime range only through the
declared range operators. -/
theorem claim_C7 :
    ∀ (eq1 eq2 : String → Option String) (ts : List TsQual) (m : Int),
      (∀ f ∈ buildQueryFilter eq1,
        ∃ p, p ∈ filterQuals ∧ ∃ v, eq1 p.1 = some v ∧ f = filterClause p.2 v) ∧
      ((∀ c ∈ pushdownColumns, eq1 c = eq2 c) →
        buildFilterLogEventsInput eq1 ts m = buildFilterLogEventsInput eq2 ts m) ∧
      ((∀ q ∈ ts, q.op ∉ (["=", ">=", ">", "<", "<="] : List String)) →
        (buildFilterLogEventsInput eq1 ts m).startTime = none ∧
        (buildFilterLogEventsInput eq1 ts m).endTime = none) := by
  intro eq1 eq2 ts m
  refine ⟨?_, ?_, ?_⟩
  · intro f hf
    rcases List.mem_filterMap.1 hf with ⟨p, hp, hsome⟩
    rcases Option.map_eq_some'.1 hsome with ⟨v, hv, hfv⟩
    exact ⟨p, hp, v, hv, hfv.symm⟩
  · intro hagree
    have hlg : eq1 "log_group_name" = eq2 "log_group_name" :=
      hagree _ (by simp [pushdownColumns])
    have hls : eq1 "log_stream_name" = eq2 "log_stream_name" :=
      hagree _ (by simp [pushdownColumns])
    have hfq : eq1 "filter" = eq2 "filter" :=
      hagree _ (by simp [pushdownColumns])
    have hb : buildQueryFilter eq1 = buildQueryFilter eq2 :=
      buildQueryFilter_congr filterQuals eq1 eq2
        (fun c hc => hagree c (List.mem_append_right _ hc))
    simp only [buildFilterLogEventsInput, buildQueryFilter] at hb ⊢
    rw [hlg, hls, hfq, hb]
  · intro hno
    constructor
    · simp only [buildFilterLogEventsInput]
      rw [applyTimestampQuals_noRange ts _ hno]
      split_ifs <;> rfl
    · simp only [buildFilterLogEventsInput]
      rw [applyTimestampQuals_noRange ts _ hno]
      split_ifs <;> rfl

/-- C7 (witness): a qual on a non-pushdownable column does not change the
built provider filter, and an unsupported timestamp operator sets no
range. -/
theorem claim_C7_witness :
    (∀ c ∈ pushdownColumns,
      (fun c1 => if c1 = "event_name" then some "RunInstances" else none : String → Option String) c
        = (fun c1 => if c1 = "not_pushdownable" then some "Z"
            else if c1 = "event_name" then some "RunInstances" else none) c) ∧
    (∀ q ∈ [TsQual.mk "between" 5], q.op ∉ (["=", ">=", ">", "<", "<="] : List String)) ∧
    buildFilterLogEventsInput
        (fun c1 => if c1 = "event_name" then some "RunInstances" else none)
        [TsQual.mk "between" 5] 10000
      = buildFilterLogEventsInput
          (fun c1 => if c1 = "not_pushdownable" then some "Z"
            else if c1 = "event_name" then some "RunInstances" else none)
          [TsQual.mk "between" 5] 10000 ∧
    (buildFilterLogEventsInput
        (fun c1 => if c1 = "event_name" then some "RunInstances" else none)
        [TsQual.mk "between" 5] 10000).startTime = none ∧
    (buildFilterLogEventsInput
        (fun c1 => if c1 = "event_name" then some "RunInstances" else none)
        [TsQual.mk "between" 5] 10000).endTime = none := by
  refine ⟨by decide, by decide, ?_, ?_, ?_⟩
  · exact (claim_C7 (fun c1 => if c1 = "event_name" then some "RunInstances" else none)
      (fun c1 => if c1 = "not_pushdownable" then some "Z"
        else if c1 = "event_name" then some "RunInstances" else none)
      [TsQual.mk "between" 5] 10000).2.1 (by decide)
  · exact ((claim_C7 (fun c1 => if c1 = "event_name" then some "RunInstances" else none)
      (fun c1 => if c1 = "not_pushdownable" then some "Z"
        else if c1 = "event_name" then some "RunInstances" else none)
      [TsQual.mk "between" 5] 10000).2.2 (by decide)).1
  · exact ((claim_C7 (fun c1 => if c1 = "event_name" then some "RunInstances" else none)
      (fun c1 => if c1 = "not_pushdownable" then some "Z"
        else if c1 = "event_name" then some "RunInstances" else none)
      [TsQual.mk "between" 5] 10000).2.2 (by decide)).2

/-- C8: every provider call tagged with a (service, action) pair is
immediately preceded in the trace by the shared rate-limiter wait for
that pair, in every run of each of the four list functions (the calls of
the callback-style v1 list functions carry no tag). -/
theorem claim_C8 :
    (∀ (client : Except AwsErr (Option (List (Except AwsErr RoutesPage))))
        (apiId : String) (limit : Option Nat),
      waitsPrecedeTaggedCalls (listAPIGatewayV2Routes client apiId limit).1.events = true) ∧
    (∀ (client : Except AwsErr (List (Except AwsErr (List LogEvent))))
        (eq1 : String → Option String) (ts : List TsQual) (limit : Option Nat),
      waitsPrecedeTaggedCalls (listCloudwatchLogTrailEvents client eq1 ts limit).1.events
        = true) ∧
    (∀ (client : Except AwsErr (List (Except AwsErr OAIPage))) (limit : Option Nat),
      waitsPrecedeTaggedCalls (listCloudFrontOriginAccessIdentities client limit).1.events
        = true) ∧
    (∀ (client : Except AwsErr (List (Except AwsErr AliasesPage)))
        (fn : String) (limit : Option Nat),
      waitsPrecedeTaggedCalls (listLambdaAliases client fn limit).1.events = true) := by
  refine ⟨?_, ?_, ?_, ?_⟩
  · intro client apiId limit
    cases client with
    | error e => rw [listAPIGatewayV2Routes_error_eq]; rfl
    | ok oc =>
        cases oc with
        | none => rw [listAPIGatewayV2Routes_none_eq]; rfl
        | some responses =>
            rw [listAPIGatewayV2Routes_some_eq]
            exact wpc_of_closedTrace
              (getRoutesPages_closed apiId (computeMaxLimit 500 limit) responses
                (RunState.mk limit [] []) closedTrace_nil)
  · intro client eq1 ts limit
    cases client with
    | error e => rw [listCloudwatchLogTrailEvents_error_eq]; rfl
    | ok responses =>
        rw [listCloudwatchLogTrailEvents_ok_eq]
        exact wpc_of_closedTrace
          (filterLogEventsPages_closed (computeMaxLimit 10000 limit) responses
            (RunState.mk limit [] []) closedTrace_nil)
  · intro client limit
    cases client with
    | error e => rw [listCloudFrontOriginAccessIdentities_error_eq]; rfl
    | ok responses =>
        rw [listCloudFrontOriginAccessIdentities_ok_eq]
        exact wpc_of_closedTrace
          (listOAIPages_closed responses (RunState.mk limit [] []) closedTrace_nil)
  · intro client fn limit
    cases client with
    | error e => rw [listLambdaAliases_error_eq]; rfl
    | ok responses =>
        rw [listLambdaAliases_ok_eq]
        exact wpc_of_closedTrace
          (listAliasesPages_closed fn responses (RunState.mk limit [] []) closedTrace_nil)

/-- C9: originAccessIdentityID returns nil exactly on items that are
neither a get output nor a listed summary, and under the precondition
that the row item is one of those two variants the unconditional
dereference in getCloudFrontOriginAccessIdentityARN never hits the nil
pointer: the ARN hydrate is total on the expected variants. -/
theorem claim_C9 :
    ∀ (item : OAIItem) (common : Except AwsErr AwsCommonColumnData),
      (item = OAIItem.other → originAccessIdentityID item = none) ∧
      (item ≠ OAIItem.other →
        getCloudFrontOriginAccessIdentityARN common item ≠ HydrateResult.panicNilDeref) := by
  intro item common
  constructor
  · intro h
    subst h
    rfl
  · intro h
    cases item with
    | getOutput g =>
        cases common <;>
          simp [getCloudFrontOriginAccessIdentityARN, originAccessIdentityID]
    | summary s =>
        cases common <;>
          simp [getCloudFrontOriginAccessIdentityARN, originAccessIdentityID]
    | other => exact absurd rfl h

/-- C9 (witness): a listed summary row hydrates to an ARN without hitting
the nil-dereference branch. -/
theorem claim_C9_witness :
    OAIItem.summary (OAISummary.mk "E1A" none) ≠ OAIItem.other ∧
    getCloudFrontOriginAccessIdentityARN
        (Except.ok (AwsCommonColumnData.mk "aws" "123456789012"))
        (OAIItem.summary (OAISummary.mk "E1A" none))
      ≠ HydrateResult.panicNilDeref := by
  refine ⟨by decide, ?_⟩
  exact (claim_C9 (OAIItem.summary (OAISummary.mk "E1A" none))
    (Except.ok (AwsCommonColumnData.mk "aws" "123456789012"))).2 (by decide)

/-- C10: when GetPolicy fails with an awserr whose code is
ResourceNotFoundException, getLambdaAliasPolicy returns the zero-value
GetPolicyOutput with no error, so the row keeps null policy columns
instead of failing; every other GetPolicy error is returned to the
caller. -/
theorem claim_C10 :
    ∀ (svcCall : GetPolicyInput → Except AwsErr GetPolicyOutput)
      (item : AliasRowData) (e : AwsErr),
      svcCall (GetPolicyInput.mk item.functionName item.Alias.name) = Except.error e →
      (isResourceNotFound e = true →
        getLambdaAliasPolicy (Except.ok svcCall) item
          = (Except.ok (GetPolicyOutput.mk none none),
             [GetPolicyInput.mk item.functionName item.Alias.name])) ∧
      (isResourceNotFound e = false →
        getLambdaAliasPolicy (Except.ok svcCall) item
          = (Except.error e,
             [GetPolicyInput.mk item.functionName item.Alias.name])) := by
  intro svcCall item e hcall
  constructor
  · intro hrnf
    simp only [getLambdaAliasPolicy]
    rw [hcall]
    simp [hrnf]
  · intro hrnf
    simp only [getLambdaAliasPolicy]
    rw [hcall]
    simp [hrnf]

/-- C10 (witness): a ResourceNotFoundException from GetPolicy yields the
empty policy output with no error, and a throttling error is passed
through. -/
theorem claim_C10_witness :
    ((fun _ : GetPolicyInput =>
        (Except.error (AwsErr.aws "ResourceNotFoundException" "nope")
          : Except AwsErr GetPolicyOutput))
      (GetPolicyInput.mk "fn" "live")
        = Except.error (AwsErr.aws "ResourceNotFoundException" "nope")) ∧
    isResourceNotFound (AwsErr.aws "ResourceNotFoundException" "nope") = true ∧
    getLambdaAliasPolicy
        (Except.ok (fun _ =>
          Except.error (AwsErr.aws "ResourceNotFoundException" "nope")))
        (AliasRowData.mk (AliasConfiguration.mk "live" none) "fn")
      = (Except.ok (GetPolicyOutput.mk none none), [GetPolicyInput.mk "fn" "live"]) ∧
    isResourceNotFound (AwsErr.aws "TooManyRequestsException" "slow") = false ∧
    getLambdaAliasPolicy
        (Except.ok (fun _ =>
          Except.error (AwsErr.aws "TooManyRequestsException" "slow")))
        (AliasRowData.mk (AliasConfiguration.mk "live" none) "fn")
      = (Except.error (AwsErr.aws "TooManyRequestsException" "slow"),
         [GetPolicyInput.mk "fn" "live"]) := by
  refine ⟨rfl, by decide, ?_, by decide, ?_⟩
  · exact (claim_C10
      (fun _ => Except.error (AwsErr.aws "ResourceNotFoundException" "nope"))
      (AliasRowData.mk (AliasConfiguration.mk "live" none) "fn")
      (AwsErr.aws "ResourceNotFoundException" "nope") rfl).1 (by decide)
  · exact (claim_C10
      (fun _ => Except.error (AwsErr.aws "TooManyRequestsException" "slow"))
      (AliasRowData.mk (AliasConfiguration.mk "live" none) "fn")
      (AwsErr.aws "TooManyRequestsException" "slow") rfl).2 (by decide)

end Steampipe
